import Mathlib

/-!
Verification of the action-planning engine of the job-application autofill
extension (src/lib/action-engine.ts, with src/lib/webllm.ts at the backend
boundary).

Modelling conventions:
* JavaScript strings are modelled as `Str := List Char`; only the ASCII
  behaviour of `toLowerCase`/`trim`/`\s` is modelled (all inputs relevant to
  the claims are ASCII).
* JavaScript numbers are modelled as `ℚ` (exact rational arithmetic; every
  numeric comparison performed by the code is far from any rounding
  boundary at the inputs the claims exercise).
* The generative backend (`runWebLlmPrompt`, `generateFieldContent`) and
  `Math.random` are modelled as an explicit `Oracle`: theorems quantify over
  every possible backend behaviour, including rejections.
* `crypto.randomUUID` only produces the opaque `id` field, which no claim
  depends on; it is modelled as the empty string.
* A JavaScript function that can throw is modelled in `Except Str`, the
  error being the thrown error's message; `try`/`catch` becomes a `match`.
-/

namespace JobAgent

abbrev Str := List Char

/-- The double-quote character (written via its code point to keep string
literals in this file free of escaped quotes where possible). -/
def qc : Char := Char.ofNat 34

/-- Backslash. -/
def bsc : Char := Char.ofNat 92

/-- Single quote. -/
def sqc : Char := Char.ofNat 39

/-- Backtick. -/
def btc : Char := Char.ofNat 96

/-- ASCII lowercasing of one character (`String.prototype.toLowerCase`,
restricted to ASCII). -/
def lowerChar (c : Char) : Char :=
  if 65 ≤ c.toNat ∧ c.toNat ≤ 90 then Char.ofNat (c.toNat + 32) else c

/-- Whitespace class of JavaScript regexes (`\s`) and of
`String.prototype.trim`, restricted to ASCII. -/
def isWsChar (c : Char) : Bool :=
  c == ' ' || c == Char.ofNat 9 || c == Char.ofNat 10 ||
  c == Char.ofNat 11 || c == Char.ofNat 12 || c == Char.ofNat 13

/-- `String.prototype.trim`. -/
def trimStr (s : Str) : Str :=
  ((s.dropWhile isWsChar).reverse.dropWhile isWsChar).reverse

/-- `String.prototype.toLowerCase` (ASCII). -/
def lowerStr (s : Str) : Str := s.map lowerChar

/-- `a.includes(b)` on strings. -/
def strContains (s pat : Str) : Bool :=
  s.tails.any (fun t => pat.isPrefixOf t)

/-- `normalize` (action-engine.ts line 50): trim + lowercase. -/
def normalizeStr (v : Str) : Str := lowerStr (trimStr v)

/-- First non-empty string of a list, else empty: the denotation of a
JavaScript truthiness chain `a || b || c || ""`. -/
def firstNonEmpty (l : List Str) : Str :=
  match l.find? (fun s => !s.isEmpty) with
  | some s => s
  | none => []

/-- Word character of JavaScript regexes (`\w`). -/
def isWordChar (c : Char) : Bool :=
  (97 ≤ c.toNat && c.toNat ≤ 122) || (65 ≤ c.toNat && c.toNat ≤ 90) ||
  (48 ≤ c.toNat && c.toNat ≤ 57) || c == Char.ofNat 95

/-!
Rational arithmetic helpers.  JavaScript numbers are modelled as `ℚ`; the
operations are spelled through `mkRat` on numerators/denominators (these are
extensionally the field operations of `ℚ`, written so that closed claims can
be settled by kernel evaluation).
-/

/-- Addition on `ℚ`. -/
def qadd (a b : ℚ) : ℚ := mkRat (a.num * b.den + b.num * a.den) (a.den * b.den)

/-- Subtraction on `ℚ`. -/
def qsub (a b : ℚ) : ℚ := mkRat (a.num * b.den - b.num * a.den) (a.den * b.den)

/-- Multiplication on `ℚ`. -/
def qmul (a b : ℚ) : ℚ := mkRat (a.num * b.num) (a.den * b.den)

/-- Division on `ℚ` (every division performed by the modelled code has a
positive divisor). -/
def qdiv (a b : ℚ) : ℚ :=
  if b.num < 0 then mkRat (-(a.num * b.den)) (a.den * b.num.natAbs)
  else mkRat (a.num * b.den) (a.den * b.num.natAbs)

/-- `Math.min` on two numbers. -/
def qmin (a b : ℚ) : ℚ := if a ≤ b then a else b

/-- `Math.max` on two numbers. -/
def qmax (a b : ℚ) : ℚ := if a ≤ b then b else a

/-- Cast of a natural number into `ℚ`. -/
def qofNat (n : Nat) : ℚ := mkRat n 1

/-!  Data model, following the shapes consumed by action-engine.ts.
(The checked-in src/types/agent.ts lags the engine: the engine reads
profile.city/state/country/zipCode/streetAddress and context.jobContext and
returns source "hybrid", matching the defaults in src/lib/storage.ts; the
structures below follow the engine's actual usage.) -/

inductive FieldKind where
  | text | textarea | email | tel | url | number | checkbox | radio | select
  | date | unknown
deriving DecidableEq, Repr

structure FieldOption where
  label : Str
  value : Str
deriving DecidableEq, Repr

structure ExtractedField where
  id : Str
  selector : Str
  kind : FieldKind
  label : Str
  name : Str
  placeholder : Str
  required : Bool
  options : List FieldOption
  currentValue : Str
deriving DecidableEq, Repr

structure NavigationTarget where
  id : Str
  selector : Str
  text : Str
deriving DecidableEq, Repr

structure FormSnapshot where
  url : Str
  title : Str
  capturedAt : Nat
  fields : List ExtractedField
  navigationTargets : List NavigationTarget
deriving DecidableEq, Repr

structure UserProfile where
  fullName : Str
  email : Str
  phone : Str
  city : Str
  state : Str
  country : Str
  zipCode : Str
  streetAddress : Str
  linkedin : Str
  github : Str
  portfolio : Str
  currentTitle : Str
  yearsExperience : Str
  workAuthorization : Str
  needsSponsorship : Str
  summary : Str
deriving DecidableEq, Repr

structure JobContext where
  jobTitle : Str
  companyName : Str
  description : Str
deriving DecidableEq, Repr

structure ResumeData where
  rawText : Str
  parsedHighlights : List Str
deriving DecidableEq, Repr

structure AgentContext where
  profile : UserProfile
  resume : ResumeData
  jobContext : JobContext
deriving DecidableEq, Repr

inductive ActionType where
  | setValue | setSelect | setCheckbox | setRadio | clickNext
deriving DecidableEq, Repr

structure AgentAction where
  id : Str
  type : ActionType
  selector : Str
  fieldLabel : Str
  value : Str
  reasoning : Str
  confidence : ℚ
deriving DecidableEq, Repr

structure PlanResult where
  source : Str
  actions : List AgentAction
  llmDetail : Str
deriving DecidableEq, Repr

/-- An action as validated by `llmActionSchema` (the zod schema at the top of
action-engine.ts): selector a non-empty string, type one of the five known
action kinds, string fields defaulted to `""`, confidence in `[0,1]`
defaulted to `0.6`. -/
structure LlmAction where
  selector : Str
  type : ActionType
  fieldLabel : Str
  value : Str
  reasoning : Str
  confidence : ℚ
deriving DecidableEq, Repr

/-!  JSON values and `JSON.parse`.

`tryParseActions` feeds arbitrary model output through `JSON.parse`; the
parser below implements the JSON grammar (ECMA-404) on `Str`, with `none` for
a thrown `SyntaxError`.  Recursion is by fuel; every recursive call follows
the consumption of at least one input character, so the fuel
`input length + 1` used at the entry point never runs out. -/

inductive Json where
  | jnull : Json
  | jbool : Bool → Json
  | jnum : ℚ → Json
  | jstr : Str → Json
  | jarr : List Json → Json
  | jobj : List (Str × Json) → Json
deriving Repr

/-- JSON inter-token whitespace (space, tab, line feed, carriage return). -/
def isJsonWs (c : Char) : Bool :=
  c == ' ' || c == Char.ofNat 9 || c == Char.ofNat 10 || c == Char.ofNat 13

def skipJsonWs (s : Str) : Str := s.dropWhile isJsonWs

def isDigitChar (c : Char) : Bool := 48 ≤ c.toNat && c.toNat ≤ 57

def digitVal (c : Char) : Nat := c.toNat - 48

def digitsToNat (l : Str) : Nat := l.foldl (fun acc c => acc * 10 + digitVal c) 0

def hexVal (c : Char) : Option Nat :=
  if 48 ≤ c.toNat ∧ c.toNat ≤ 57 then some (c.toNat - 48)
  else if 97 ≤ c.toNat ∧ c.toNat ≤ 102 then some (c.toNat - 87)
  else if 65 ≤ c.toNat ∧ c.toNat ≤ 70 then some (c.toNat - 55)
  else none

/-- Body of a JSON string after the opening quote; returns the decoded
characters and the input after the closing quote. -/
def pJsonStr : Nat → Str → Option (Str × Str)
  | 0, _ => none
  | _, [] => none
  | fuel + 1, c :: rest =>
    if c == qc then some ([], rest)
    else if c == bsc then
      match rest with
      | [] => none
      | e :: rest2 =>
        let dec : Option (Char × Str) :=
          if e == qc then some (qc, rest2)
          else if e == bsc then some (bsc, rest2)
          else if e == Char.ofNat 47 then some (Char.ofNat 47, rest2)
          else if e == 'b' then some (Char.ofNat 8, rest2)
          else if e == 'f' then some (Char.ofNat 12, rest2)
          else if e == 'n' then some (Char.ofNat 10, rest2)
          else if e == 'r' then some (Char.ofNat 13, rest2)
          else if e == 't' then some (Char.ofNat 9, rest2)
          else if e == 'u' then
            match rest2 with
            | h1 :: h2 :: h3 :: h4 :: rest3 =>
              match hexVal h1, hexVal h2, hexVal h3, hexVal h4 with
              | some a, some b2, some c2, some d =>
                some (Char.ofNat (((a * 16 + b2) * 16 + c2) * 16 + d), rest3)
              | _, _, _, _ => none
            | _ => none
          else none
        match dec with
        | none => none
        | some (ch, rest3) =>
          match pJsonStr fuel rest3 with
          | some (out, rem) => some (ch :: out, rem)
          | none => none
    else if c.toNat < 32 then none
    else
      match pJsonStr fuel rest with
      | some (out, rem) => some (c :: out, rem)
      | none => none

/-- JSON number starting at the input head; `sgn` is true for a leading
minus already consumed. -/
def pJsonNum (sgn : Bool) (s : Str) : Option (ℚ × Str) :=
  let intDigits := s.takeWhile isDigitChar
  let rest := s.drop intDigits.length
  if intDigits.isEmpty then none
  else if intDigits.length > 1 ∧ intDigits.headD '0' == '0' then none
  else
    let (fracDigits, rest2) :=
      match rest with
      | dot :: r2 =>
        if dot == Char.ofNat 46 then
          let fd := r2.takeWhile isDigitChar
          (fd, r2.drop fd.length)
        else ([], rest)
      | [] => ([], rest)
    if (match rest with | dot :: _ => dot == Char.ofNat 46 && fracDigits.isEmpty | [] => false) then none
    else
      let (expOk, expNeg, expDigits, rest3) :=
        match rest2 with
        | e :: r3 =>
          if e == 'e' ∨ e == 'E' then
            match r3 with
            | p :: r4 =>
              if p == '+' then
                let ed := r4.takeWhile isDigitChar
                (!ed.isEmpty, false, ed, r4.drop ed.length)
              else if p == Char.ofNat 45 then
                let ed := r4.takeWhile isDigitChar
                (!ed.isEmpty, true, ed, r4.drop ed.length)
              else
                let ed := r3.takeWhile isDigitChar
                (!ed.isEmpty, false, ed, r3.drop ed.length)
            | [] => (false, false, [], r3)
          else (true, false, [], rest2)
        | [] => (true, false, [], rest2)
      if !expOk then none
      else
        let mantissa : Int := Int.ofNat (digitsToNat (intDigits ++ fracDigits))
        let mantissa := if sgn then -mantissa else mantissa
        let base : ℚ := mkRat mantissa (10 ^ fracDigits.length)
        let e := digitsToNat expDigits
        let value :=
          if expNeg then qdiv base (qofNat (10 ^ e))
          else qmul base (qofNat (10 ^ e))
        some (value, rest3)

mutual

/-- JSON value (leading whitespace allowed); returns value and rest. -/
def pJsonVal : Nat → Str → Option (Json × Str)
  | 0, _ => none
  | fuel + 1, s =>
    match skipJsonWs s with
    | [] => none
    | c :: rest =>
      if c == qc then
        match pJsonStr fuel rest with
        | some (str, rem) => some (.jstr str, rem)
        | none => none
      else if c == '[' then
        match skipJsonWs rest with
        | ']' :: rem => some (.jarr [], rem)
        | _ =>
          match pJsonArrItems fuel rest with
          | some (items, rem) => some (.jarr items, rem)
          | none => none
      else if c == Char.ofNat 123 then
        match skipJsonWs rest with
        | d :: rem =>
          if d == Char.ofNat 125 then some (.jobj [], rem)
          else
            match pJsonObjItems fuel rest with
            | some (kvs, rem2) => some (.jobj kvs, rem2)
            | none => none
        | [] => none
      else if c == 't' then
        match rest with
        | 'r' :: 'u' :: 'e' :: rem => some (.jbool true, rem)
        | _ => none
      else if c == 'f' then
        match rest with
        | 'a' :: 'l' :: 's' :: 'e' :: rem => some (.jbool false, rem)
        | _ => none
      else if c == 'n' then
        match rest with
        | 'u' :: 'l' :: 'l' :: rem => some (.jnull, rem)
        | _ => none
      else if c == Char.ofNat 45 then
        match pJsonNum true rest with
        | some (q, rem) => some (.jnum q, rem)
        | none => none
      else if isDigitChar c then
        match pJsonNum false (c :: rest) with
        | some (q, rem) => some (.jnum q, rem)
        | none => none
      else none

/-- Comma-separated array items, after the opening bracket (nonempty case). -/
def pJsonArrItems : Nat → Str → Option (List Json × Str)
  | 0, _ => none
  | fuel + 1, s =>
    match pJsonVal fuel s with
    | none => none
    | some (v, rest) =>
      match skipJsonWs rest with
      | ',' :: rest2 =>
        match pJsonArrItems fuel rest2 with
        | some (items, rem) => some (v :: items, rem)
        | none => none
      | ']' :: rest2 => some ([v], rest2)
      | _ => none

/-- Comma-separated object members, after the opening brace (nonempty case). -/
def pJsonObjItems : Nat → Str → Option (List (Str × Json) × Str)
  | 0, _ => none
  | fuel + 1, s =>
    match skipJsonWs s with
    | k :: rest =>
      if k == qc then
        match pJsonStr fuel rest with
        | none => none
        | some (key, rest2) =>
          match skipJsonWs rest2 with
          | ':' :: rest3 =>
            match pJsonVal fuel rest3 with
            | none => none
            | some (v, rest4) =>
              match skipJsonWs rest4 with
              | ',' :: rest5 =>
                match pJsonObjItems fuel rest5 with
                | some (kvs, rem) => some ((key, v) :: kvs, rem)
                | none => none
              | d :: rest5 =>
                if d == Char.ofNat 125 then some ([(key, v)], rest5) else none
              | [] => none
          | _ => none
      else none
    | [] => none

end

/-- `JSON.parse`: `none` models a thrown `SyntaxError`. -/
def jsonParse (s : Str) : Option Json :=
  match pJsonVal (s.length + 1) s with
  | some (j, rest) => if (skipJsonWs rest).isEmpty then some j else none
  | none => none

/-!  The zod schemas `llmActionSchema`, `llmActionListSchema` and
`wrappedSchema` of action-engine.ts. -/

/-- Property lookup on a parsed JSON object: with duplicate keys,
`JSON.parse` keeps the last occurrence. -/
def objGet (kvs : List (Str × Json)) (k : Str) : Option Json :=
  (kvs.reverse.find? (fun p => p.1 == k)).map (·.2)

/-- `z.enum(["setValue","setSelect","setCheckbox","setRadio","clickNext"])`. -/
def parseActionType (s : Str) : Option ActionType :=
  if s = "setValue".data then some .setValue
  else if s = "setSelect".data then some .setSelect
  else if s = "setCheckbox".data then some .setCheckbox
  else if s = "setRadio".data then some .setRadio
  else if s = "clickNext".data then some .clickNext
  else none

/-- `z.string().min(1)` on a required property. -/
def zNonEmptyString (j : Option Json) : Option Str :=
  match j with
  | some (.jstr s) => if s.isEmpty then none else some s
  | _ => none

/-- `z.string().default("")`. -/
def zStringDefault (j : Option Json) : Option Str :=
  match j with
  | none => some []
  | some (.jstr s) => some s
  | some _ => none

/-- `z.number().min(0).max(1).default(0.6)`. -/
def zConfidence (j : Option Json) : Option ℚ :=
  match j with
  | none => some (mkRat 6 10)
  | some (.jnum q) => if 0 ≤ q ∧ q ≤ 1 then some q else none
  | some _ => none

/-- The `type` property: a string matching the action-kind enum. -/
def zType (kvs : List (Str × Json)) : Option ActionType :=
  match zNonEmptyString (objGet kvs "type".data) with
  | some s => parseActionType s
  | none => none

/-- `llmActionSchema.safeParse` on one JSON value: an object whose every
property validates (unknown properties are stripped; a missing `type` is a
required-field failure, and `zNonEmptyString` also imposes `min(1)` there,
which the enum members satisfy anyway). -/
def llmActionParse (j : Json) : Option LlmAction :=
  match j with
  | .jobj kvs =>
    match zNonEmptyString (objGet kvs "selector".data), zType kvs,
        zStringDefault (objGet kvs "fieldLabel".data),
        zStringDefault (objGet kvs "value".data),
        zStringDefault (objGet kvs "reasoning".data),
        zConfidence (objGet kvs "confidence".data) with
    | some sel, some ty, some fl, some v, some r, some conf =>
      some ⟨sel, ty, fl, v, r, conf⟩
    | _, _, _, _, _, _ => none
  | _ => none

/-- All-or-nothing validation of a list of JSON values. -/
def llmListParse : List Json → Option (List LlmAction)
  | [] => some []
  | j :: rest =>
    match llmActionParse j, llmListParse rest with
    | some a, some l => some (a :: l)
    | _, _ => none

/-- `llmActionListSchema.safeParse`: an array whose every element validates. -/
def llmActionListParse (j : Json) : Option (List LlmAction) :=
  match j with
  | .jarr xs => llmListParse xs
  | _ => none

/-- `wrappedSchema.safeParse`: `\x7b actions: [...] \x7d`. -/
def wrappedParse (j : Json) : Option (List LlmAction) :=
  match j with
  | .jobj kvs =>
    match objGet kvs "actions".data with
    | some inner => llmActionListParse inner
    | none => none
  | _ => none

/-!  `extractLikelyJson`, `repairJson` and `tryParseActions`. -/

/-- Index of the first occurrence of `pat` in `s`. -/
def findSubIdx? (s pat : Str) : Option Nat :=
  (List.range (s.length + 1)).find? (fun i => pat.isPrefixOf (s.drop i))

/-- The fenced-block regex of `extractLikelyJson`
(three backticks, optional case-insensitive "json", `\s*`, lazy body,
three backticks); returns the captured body. -/
def fencedCapture (s : Str) : Option Str :=
  let ticks : Str := [btc, btc, btc]
  match findSubIdx? s ticks with
  | none => none
  | some i =>
    let afterOpen := s.drop (i + 3)
    let afterTag :=
      if lowerStr (afterOpen.take 4) = "json".data then afterOpen.drop 4
      else afterOpen
    let body0 := afterTag.dropWhile isWsChar
    match findSubIdx? body0 ticks with
    | none => none
    | some k => some (body0.take k)

/-- The no-fence fallback of `extractLikelyJson`: substring from the first
`[` to the last `]` when both exist in that order, else the raw text. -/
def bracketSlice (raw : Str) : Str :=
  match raw.findIdx? (· == '['), (raw.reverse.findIdx? (· == ']')).map (fun k => raw.length - 1 - k) with
  | some i, some j => if i < j then (raw.drop i).take (j + 1 - i) else raw
  | _, _ => raw

/-- `extractLikelyJson` (action-engine.ts lines 52-64). -/
def extractLikelyJson (raw : Str) : Str :=
  match fencedCapture raw with
  | some body => if body.isEmpty then bracketSlice raw else trimStr body
  | none => bracketSlice raw

/-- One scan step of `text.replace(/,\s*([}\]])/g, "$1")` (fuelled; each step
consumes at least one character, so the initial fuel never runs out). -/
def stripCommasGo : Nat → Str → Str
  | 0, s => s
  | _ + 1, [] => []
  | fuel + 1, c :: rest =>
    if c == ',' then
      let ws := rest.takeWhile isWsChar
      match rest.drop ws.length with
      | d :: rest2 =>
        if d == Char.ofNat 125 ∨ d == ']' then d :: stripCommasGo fuel rest2
        else c :: stripCommasGo fuel rest
      | [] => c :: stripCommasGo fuel rest
    else c :: stripCommasGo fuel rest

/-- `text.replace(/,\s*([}\]])/g, "$1")`: drop a comma standing right before
a closing brace/bracket (whitespace between them is dropped with it). -/
def stripTrailingCommas (s : Str) : Str := stripCommasGo (s.length + 1) s

/-- One scan step of `text.replace(/(\w+)\s*:/g, quote-the-key)` (fuelled). -/
def quoteKeysGo : Nat → Str → Str
  | 0, s => s
  | _ + 1, [] => []
  | fuel + 1, c :: rest =>
    if isWordChar c then
      let run := (c :: rest).takeWhile isWordChar
      let tl := (c :: rest).drop run.length
      let ws := tl.takeWhile isWsChar
      match tl.drop ws.length with
      | ':' :: rest2 => (qc :: run ++ [qc, ':']) ++ quoteKeysGo fuel rest2
      | _ => run ++ quoteKeysGo fuel tl
    else c :: quoteKeysGo fuel rest

/-- `text.replace(/(\w+)\s*:/g, (m, key) => quoted-key)`: quote bare object
keys (a maximal word run directly before `\s*:`; no match can start inside a
skipped run, since any such match would need the same colon). -/
def quoteBareKeys (s : Str) : Str := quoteKeysGo (s.length + 1) s

/-- `repairJson` (action-engine.ts lines 66-80).  The `.error` case models
the `RangeError` thrown by `"]".repeat(openCount - closeCount)` when the
count is negative (text starts with `[`, does not end with `]`, and closing
brackets outnumber opening ones). -/
def repairJson (raw : Str) : Except Str Str :=
  let text := trimStr raw
  let text := stripTrailingCommas text
  let openCount := (text.filter (· == '[')).length
  let closeCount := (text.filter (· == ']')).length
  if text.head? == some '[' ∧ text.getLast? ≠ some ']' ∧ closeCount > openCount then
    .error "Invalid count value".data
  else
    let text :=
      if text.head? == some '[' ∧ text.getLast? ≠ some ']' then
        text ++ List.replicate (openCount - closeCount) ']'
      else text
    let text :=
      if text.head? == some (Char.ofNat 123) ∧ text.getLast? ≠ some (Char.ofNat 125) then
        '[' :: (text ++ [Char.ofNat 125, ']'])
      else text
    let text := text.map (fun c => if c == sqc then qc else c)
    .ok (quoteBareKeys text)

/-- The bare-array branch of a `tryParseActions` candidate
(`llmActionListSchema.safeParse` accepted only when non-empty). -/
def directActions (parsed : Json) : Option (List LlmAction) :=
  match llmActionListParse parsed with
  | some (a :: rest) => some (a :: rest)
  | _ => none

/-- One candidate of the `tryParseActions` loop: `JSON.parse`, then the
wrapped `\x7b actions: [...] \x7d` shape, then the bare-array shape, each
accepted only when non-empty. -/
def candidateActions (cand : Str) : Option (List LlmAction) :=
  match jsonParse cand with
  | none => none
  | some parsed =>
    match wrappedParse parsed with
    | some (a :: rest) => some (a :: rest)
    | _ => directActions parsed

/-- Does a brace-free span contain `"selector"\s*:\s*"[^"]+?"`? -/
def spanHasSelector (inner : Str) : Bool :=
  (List.range (inner.length + 1)).any (fun i =>
    let t := inner.drop i
    let pat := qc :: ("selector".data ++ [qc])
    if pat.isPrefixOf t then
      let t2 := (t.drop pat.length).dropWhile isWsChar
      match t2 with
      | ':' :: t3 =>
        let t4 := t3.dropWhile isWsChar
        match t4 with
        | q :: t5 =>
          if q == qc then
            let run := t5.takeWhile (fun c => !(c == qc))
            !run.isEmpty && (t5.drop run.length).head? == some qc
          else false
        | [] => false
      | _ => false
    else false)

/-- The scan of `raw.match(/\{[^{}]*"selector"\s*:\s*"[^"]+?"[^{}]*\}/g)`:
at each `\x7b`, the candidate extent runs to the next brace; it matches when
that brace is `\x7d` and the span contains a selector binding, in which case
the scan resumes after the match, else one character later (fuelled; each
step consumes at least one character). -/
def salvageGo : Nat → Str → List Str
  | 0, _ => []
  | _ + 1, [] => []
  | fuel + 1, c :: rest =>
    if c == Char.ofNat 123 then
      let span := rest.takeWhile (fun d => !(d == Char.ofNat 123) && !(d == Char.ofNat 125))
      match rest.drop span.length with
      | d :: rest2 =>
        if d == Char.ofNat 125 ∧ spanHasSelector span then
          (Char.ofNat 123 :: (span ++ [Char.ofNat 125])) :: salvageGo fuel rest2
        else salvageGo fuel rest
      | [] => salvageGo fuel rest
    else salvageGo fuel rest

/-- One salvaged object: `JSON.parse` inside the per-object try/catch, then
`llmActionSchema.safeParse`, keeping only validated results. -/
def salvageOne (obj : Str) : Option LlmAction :=
  match jsonParse obj with
  | some j => llmActionParse j
  | none => none

/-- The last-resort stage of `tryParseActions`: parse and validate each
object-shaped substring independently, keeping the ones that validate and
accepting the result only when at least one did (the initial
`objects.length > 0` guard is subsumed: no objects means no validated
actions). -/
def salvageActions (raw : Str) : Option (List LlmAction) :=
  match (salvageGo (raw.length + 1) raw).filterMap salvageOne with
  | [] => none
  | a :: rest => some (a :: rest)

/-- `tryParseActions` (action-engine.ts lines 84-114).  `.error` models an
exception escaping the function: the candidate list
`[extracted, repairJson(extracted), repairJson(raw)]` is built eagerly, so a
`repairJson` throw aborts the whole parse before any candidate is tried. -/
def tryParseActions (raw : Str) : Except Str (Option (List LlmAction)) :=
  let extracted := extractLikelyJson raw
  match repairJson extracted, repairJson raw with
  | .error e, _ => .error e
  | _, .error e => .error e
  | .ok rExtracted, .ok rRaw =>
    match [extracted, rExtracted, rRaw].findSome? candidateActions with
    | some acts => .ok (some acts)
    | none => .ok (salvageActions raw)

/-!  The OptionResolver: `COUNTRY_ALIASES`, `jaroWinkler`, `resolveAlias`,
`pickOptionValue` (action-engine.ts lines 116-225). -/

def COUNTRY_ALIASES : List (Str × List Str) := [
  ("united states".data, ["us".data, "usa".data, "u.s.".data, "u.s.a.".data,
    "united states of america".data, "america".data]),
  ("united kingdom".data, ["uk".data, "u.k.".data, "great britain".data,
    "gb".data, "england".data]),
  ("canada".data, ["ca".data, "can".data]),
  ("australia".data, ["au".data, "aus".data]),
  ("germany".data, ["de".data, "deutschland".data]),
  ("france".data, ["fr".data]),
  ("india".data, ["in".data]),
  ("china".data, ["cn".data, "prc".data]),
  ("japan".data, ["jp".data, "jpn".data]),
  ("south korea".data, ["kr".data, "korea".data]),
  ("brazil".data, ["br".data]),
  ("mexico".data, ["mx".data])]

/-- The matching pass of `jaroWinkler`: for each character of `a` in order,
claim the first unclaimed equal character of `b` inside the match window.
Returns (aMatches, bMatches, match count). -/
def jwScan (a b : Str) (mw : Nat) : List Bool × List Bool × Nat :=
  a.enum.foldl (fun st p =>
    let i := p.1
    let ai := p.2
    let start := i - mw
    let stop := min (i + mw + 1) b.length
    match (List.range' start (stop - start)).find?
        (fun j => !(st.2.1.getD j true) && (b.getD j (Char.ofNat 0) == ai)) with
    | some j => (st.1 ++ [true], st.2.1.set j true, st.2.2 + 1)
    | none => (st.1 ++ [false], st.2.1, st.2.2))
    (([] : List Bool), (List.replicate b.length false, 0))

/-- Leading run of positionwise-equal characters. -/
def commonLead : Str → Str → Nat
  | x :: xs, y :: ys => if x == y then commonLead xs ys + 1 else 0
  | _, _ => 0

/-- `jaroWinkler` (action-engine.ts lines 131-176).  The transposition
count pairs the matched characters of `a` and of `b` in order, exactly what
the source's `k`-pointer loop computes. -/
def jaroWinkler (a b : Str) : ℚ :=
  if a = b then 1
  else
    let aLen := a.length
    let bLen := b.length
    if aLen = 0 ∨ bLen = 0 then 0
    else
      let mw := max aLen bLen / 2 - 1
      let scan := jwScan a b mw
      let m := scan.2.2
      if m = 0 then 0
      else
        let aSel := ((a.zip scan.1).filter (fun p => p.2)).map (fun p => p.1)
        let bSel := ((b.zip scan.2.1).filter (fun p => p.2)).map (fun p => p.1)
        let t := ((aSel.zip bSel).filter (fun p => !(p.1 == p.2))).length
        let jaro := qdiv
          (qadd (qadd (qdiv (qofNat m) (qofNat aLen)) (qdiv (qofNat m) (qofNat bLen)))
            (qdiv (qsub (qofNat m) (qdiv (qofNat t) (qofNat 2))) (qofNat m)))
          (qofNat 3)
        let pfx := min (commonLead a b) 4
        qadd jaro (qmul (qmul (qofNat pfx) (mkRat 1 10)) (qsub 1 jaro))

/-- `resolveAlias` (action-engine.ts lines 178-186): the target plus every
synonym group containing it, deduplicated in first-seen order
(`[...new Set(candidates)]`). -/
def resolveAlias (target : Str) : List Str :=
  let candidates := target :: COUNTRY_ALIASES.foldl (fun acc ca =>
    if target = ca.1 ∨ target ∈ ca.2 then acc ++ (ca.1 :: ca.2) else acc) []
  candidates.foldl (fun acc x => if x ∈ acc then acc else acc ++ [x]) []

/-- Best similarity score over the options, with the associated option value
(ties and the initial state keep the earlier candidate; strict improvement
required, starting from score 0 and value ""). -/
def bestSimilar (target : Str) (options : List FieldOption) : ℚ × Str :=
  options.foldl (fun acc o =>
    let score := qmax (jaroWinkler target (normalizeStr o.label))
      (jaroWinkler target (normalizeStr o.value))
    if acc.1 < score then (score, o.value) else acc) ((0 : ℚ), [])

/-- The alias pass of `pickOptionValue`: for each alias in order, an exact
normalized match against option values, then against option labels. -/
def aliasLookup (aliases : List Str) (options : List FieldOption) : Option Str :=
  aliases.findSome? (fun al =>
    match options.find? (fun o => normalizeStr o.value == al) with
    | some o => some o.value
    | none => (options.find? (fun o => normalizeStr o.label == al)).map (·.value))

/-- `pickOptionValue` (action-engine.ts lines 188-225). -/
def pickOptionValue (field : ExtractedField) (rawTarget : Str) : Str :=
  if rawTarget.isEmpty then []
  else
    let target := normalizeStr rawTarget
    match field.options.find? (fun o => normalizeStr o.value == target) with
    | some o => o.value
    | none =>
    match field.options.find? (fun o => normalizeStr o.label == target) with
    | some o => o.value
    | none =>
    match aliasLookup (resolveAlias target) field.options with
    | some v => v
    | none =>
    match field.options.find? (fun o =>
        strContains (normalizeStr o.label) target ||
        strContains target (normalizeStr o.label)) with
    | some o => o.value
    | none =>
      let best := bestSimilar target field.options
      if mkRat 85 100 ≤ best.1 then best.2 else []

/-!  The FieldValueResolver: `PROFILE_HINTS`, `composeLocationString`,
`findProfileValueForField` (action-engine.ts lines 29-48, 263-286). -/

def PROFILE_HINTS : List ((UserProfile → Str) × List Str) := [
  (UserProfile.fullName, ["full name".data, "name".data, "legal name".data]),
  (UserProfile.email, ["email".data]),
  (UserProfile.phone, ["phone".data, "mobile".data, "telephone".data]),
  (UserProfile.city, ["city".data, "town".data, "municipality".data]),
  (UserProfile.state, ["state".data, "province".data, "region".data, "prefecture".data]),
  (UserProfile.country, ["country".data, "nation".data]),
  (UserProfile.zipCode, ["zip".data, "postal".data, "postcode".data, "zip code".data, "postal code".data]),
  (UserProfile.streetAddress, ["street".data, "address line".data, "address 1".data, "mailing address".data]),
  (UserProfile.linkedin, ["linkedin".data]),
  (UserProfile.github, ["github".data]),
  (UserProfile.portfolio, ["portfolio".data, "website".data, "personal site".data]),
  (UserProfile.currentTitle, ["title".data, "current role".data, "position".data]),
  (UserProfile.yearsExperience, ["years".data, "experience".data]),
  (UserProfile.workAuthorization, ["work authorization".data, "authorized".data, "visa".data]),
  (UserProfile.needsSponsorship, ["sponsorship".data, "sponsor".data])]

/-- `composeLocationString`: `[city, state, country].filter(Boolean).join(", ")`. -/
def composeLocationString (profile : UserProfile) : Str :=
  List.intercalate ", ".data
    ([profile.city, profile.state, profile.country].filter (fun s => !s.isEmpty))

/-- `findProfileValueForField` (action-engine.ts lines 263-286).  A hint hit
whose profile value is empty does not return: the loop continues. -/
def findProfileValueForField (field : ExtractedField) (context : AgentContext) : Str :=
  let combined := normalizeStr
    (List.intercalate " ".data
      ([field.label, field.name, field.placeholder].filter (fun s => !s.isEmpty)))
  if combined.isEmpty then []
  else
    match PROFILE_HINTS.findSome? (fun d =>
        if d.2.any (fun hint => strContains combined (normalizeStr hint)) then
          let value := d.1 context.profile
          if value.isEmpty then none else some value
        else none) with
    | some v => v
    | none =>
      if strContains combined "location".data || strContains combined "address".data then
        let composed := composeLocationString context.profile
        if composed.isEmpty then [] else composed
      else []

/-!  The RuleBasedPlanner and the pre-resolution pass
(action-engine.ts lines 227-261, 288-390). -/

/-- `hasMeaningfulValue` (lines 288-293). -/
def hasMeaningfulValue (field : ExtractedField) : Bool :=
  if field.kind = .checkbox ∨ field.kind = .radio then
    field.currentValue == "true".data
  else !(trimStr field.currentValue).isEmpty

/-- `field.label || field.name || fallback` as used for action labels. -/
def labelOr (field : ExtractedField) (fallback : Str) : Str :=
  firstNonEmpty [field.label, field.name, fallback]

/-- The checkbox truthiness test of `convertFieldToAction`: the normalized
target contains "yes", "true", "1" or "required" as a substring. -/
def checkboxChecked (target : Str) : Bool :=
  ["yes".data, "true".data, "1".data, "required".data].any
    (fun v => strContains target v)

/-- `convertFieldToAction` (lines 295-359).  `srcName` is the "webllm" /
"rule-based" tag that only feeds the reasoning strings. -/
def convertFieldToAction (field : ExtractedField) (rawValue : Str)
    (srcName : Str) (confidence : ℚ) : Option AgentAction :=
  if rawValue.isEmpty then none
  else if field.kind = .select then
    let selected := pickOptionValue field rawValue
    if selected.isEmpty then none
    else some
      { id := [], type := .setSelect, selector := field.selector,
        fieldLabel := labelOr field "select field".data, value := selected,
        reasoning := "Select option matched from ".data ++ srcName ++ " plan".data,
        confidence := confidence }
  else if field.kind = .checkbox then
    let checked := checkboxChecked (normalizeStr rawValue)
    some
      { id := [], type := .setCheckbox, selector := field.selector,
        fieldLabel := labelOr field "checkbox".data,
        value := if checked then "true".data else "false".data,
        reasoning := "Checkbox decision from ".data ++ srcName ++ " plan".data,
        confidence := confidence }
  else if field.kind = .radio then
    let selected := pickOptionValue field rawValue
    some
      { id := [], type := .setRadio, selector := field.selector,
        fieldLabel := labelOr field "radio field".data,
        value := if selected.isEmpty then rawValue else selected,
        reasoning := "Radio option from ".data ++ srcName ++ " plan".data,
        confidence := confidence }
  else some
    { id := [], type := .setValue, selector := field.selector,
      fieldLabel := labelOr field "text field".data, value := rawValue,
      reasoning := "Field matched from ".data ++ srcName ++ " plan".data,
      confidence := confidence }

/-- `ruleBasedConfidence` (lines 361-362); `r` is the `Math.random()` draw. -/
def ruleBasedConfidence (center spread r : ℚ) : ℚ :=
  qmax 0 (qmin 1 (qadd center (qmul (qsub r (mkRat 1 2)) spread)))

/-- The per-field body of `buildRuleBasedPlan`'s map (lines 365-373);
`genPred` is `isGenerativeField` of src/lib/content-generator.ts, supplied as
a parameter (the claims either quantify over it or constrain it), and `r`
the `Math.random()` draw for this field. -/
def ruleFieldAction (context : AgentContext) (genPred : Str → FieldKind → Bool)
    (r : ℚ) (field : ExtractedField) : Option AgentAction :=
  if hasMeaningfulValue field then none
  else
    let fieldLabel := firstNonEmpty [field.label, field.name, field.placeholder]
    if genPred fieldLabel field.kind then none
    else
      let rawValue := findProfileValueForField field context
      let conf := ruleBasedConfidence (mkRat 62 100) (mkRat 12 100) r
      convertFieldToAction field rawValue "rule-based".data conf

/-- The trailing navigation action of `buildRuleBasedPlan` (lines 376-387);
`r` is its `Math.random()` draw. -/
def ruleNavAction (nextButton : NavigationTarget) (r : ℚ) : AgentAction :=
  { id := [], type := .clickNext, selector := nextButton.selector,
    fieldLabel := firstNonEmpty [nextButton.text, "Next button".data],
    value := [],
    reasoning := "Detected likely navigation control".data,
    confidence := ruleBasedConfidence (mkRat 58 100) (mkRat 12 100) r }

/-- The `Math.random()` draws of one planning call: one per field position
(`rand`) and one for the rule-based navigation action (`randNav`).  The
theorems quantify over arbitrary draws, covering every random sequence. -/
structure Rng where
  rand : Nat → ℚ
  randNav : ℚ

/-- `buildRuleBasedPlan` (lines 364-390). -/
def buildRuleBasedPlan (rng : Rng) (genPred : Str → FieldKind → Bool)
    (snapshot : FormSnapshot) (context : AgentContext) : List AgentAction :=
  let fieldActions := snapshot.fields.enum.filterMap
    (fun p => ruleFieldAction context genPred (rng.rand p.1) p.2)
  match snapshot.navigationTargets.head? with
  | some nextButton => fieldActions ++ [ruleNavAction nextButton rng.randNav]
  | none => fieldActions

/-- `PreResolvedField` (lines 227-231). -/
structure PreResolvedField where
  field : ExtractedField
  resolvedValue : Option Str
  resolvedAction : Option AgentAction
deriving DecidableEq, Repr

/-- The reasoning string of a pre-resolved action. -/
def preResolvedReasoning (profileValue : Str) (optionLabel : Str) : Str :=
  "Pre-resolved: ".data ++ [qc] ++ profileValue ++ [qc] ++ " → ".data
    ++ [qc] ++ optionLabel ++ [qc]

/-- The per-field body of `preResolveSelectFields`. -/
def preResolveOne (context : AgentContext) (field : ExtractedField) :
    PreResolvedField :=
  if field.kind ≠ .select ∨ hasMeaningfulValue field then
    ⟨field, none, none⟩
  else
    let profileValue := findProfileValueForField field context
    if profileValue.isEmpty then ⟨field, none, none⟩
    else
      let matched := pickOptionValue field profileValue
      if matched.isEmpty then ⟨field, none, none⟩
      else
        let matchedOption := field.options.find? (fun o => o.value = matched)
        let action : AgentAction :=
          { id := [], type := .setSelect, selector := field.selector,
            fieldLabel := labelOr field "select field".data, value := matched,
            reasoning := preResolvedReasoning profileValue
              (match matchedOption with | some o => o.label | none => matched),
            confidence := mkRat 85 100 }
        ⟨field, some matched, some action⟩

/-- `preResolveSelectFields` (lines 233-261). -/
def preResolveSelectFields (snapshot : FormSnapshot) (context : AgentContext) :
    List PreResolvedField :=
  snapshot.fields.map (preResolveOne context)

/-!  The merge map and the orchestrator (action-engine.ts lines 541-729).

`mergedActions` is a JavaScript `Map<string, AgentAction>`: insertion-ordered
association list; `set` on a present key replaces the value in place,
otherwise appends. -/

abbrev ActionMap := List (Str × AgentAction)

/-- `Map.prototype.set`: replace the entry holding the key in place, else
append (a `Map` never holds two entries with one key, so replacing the first
occurrence is exact). -/
def mapSet : ActionMap → Str → AgentAction → ActionMap
  | [], k, v => [(k, v)]
  | q :: rest, k, v => if q.1 = k then (k, v) :: rest else q :: mapSet rest k v

/-- `Map.prototype.get`. -/
def mapGet (m : ActionMap) (k : Str) : Option AgentAction :=
  (m.find? (fun p => p.1 == k)).map (·.2)

/-- `Array.from(map.values())`. -/
def mapValues (m : ActionMap) : List AgentAction := m.map (·.2)

/-- `FORM_FILL_TYPES.has(t)` (line 18). -/
def isFillType (t : ActionType) : Bool :=
  match t with
  | .setValue | .setSelect | .setCheckbox | .setRadio => true
  | .clickNext => false

/-- `sortActions` (lines 20-27): `Array.prototype.sort` is stable
(ECMAScript 2019) and the comparator only distinguishes fill actions from
the rest, so the sort is exactly the stable partition putting fill actions
first. -/
def sortActions (actions : List AgentAction) : List AgentAction :=
  actions.filter (fun a => isFillType a.type)
    ++ actions.filter (fun a => !isFillType a.type)

/-- The `AgentAction` built by `mergeLlmActions` from a validated LLM action
(spread of `llmAction` plus a fresh id and a defaulted reasoning). -/
def llmToAction (la : LlmAction) (value : Str) : AgentAction :=
  { id := [], type := la.type, selector := la.selector,
    fieldLabel := la.fieldLabel, value := value,
    reasoning := firstNonEmpty [la.reasoning, "LLM refinement".data],
    confidence := la.confidence }

/-- The per-action filter of `mergeLlmActions` (lines 548-573): the selector
must be allowed, must name a snapshot field, and for a select field the
value must still resolve against the live option list. -/
def acceptLlm (snapshot : FormSnapshot) (allowed : List Str) (la : LlmAction) :
    Option AgentAction :=
  if la.selector ∈ allowed then
    match snapshot.fields.find? (fun f => f.selector == la.selector) with
    | none => none
    | some field =>
      if field.kind = .select then
        let resolved := pickOptionValue field la.value
        if resolved.isEmpty then none else some (llmToAction la resolved)
      else some (llmToAction la la.value)
  else none

/-- The shape shared by every write loop over `mergedActions`: fold a list,
keying each produced action by its selector and counting the writes. -/
def foldWrite {β : Type} (f : β → Option AgentAction) (l : List β)
    (st : ActionMap × Nat) : ActionMap × Nat :=
  l.foldl (fun acc x =>
    match f x with
    | none => acc
    | some act => (mapSet acc.1 act.selector act, acc.2 + 1)) st

/-- `mergeLlmActions` (lines 541-576): fold the accepted actions into the
map (last writer wins per selector), counting the merged ones. -/
def mergeLlmActions (parsed : List LlmAction) (snapshot : FormSnapshot)
    (allowed : List Str) (m : ActionMap) : ActionMap × Nat :=
  foldWrite (acceptLlm snapshot allowed) parsed (m, 0)

/-- `isHardWebLlmUnavailableError` (lines 578-579). -/
def isHardWebLlmUnavailableError (message : Str) : Bool :=
  strContains message "WebLLM unavailable in this browser context".data

/-- The error message `warmupWebLlm` (src/lib/webllm.ts lines 107-182)
throws when WebGPU is missing from the execution context. -/
def webgpuMissingMessage : Str := "WebGPU is not available in this browser".data

/-- The `hardFailureReason` message `warmupWebLlm` throws on a WebAssembly
compile/instantiate failure and on every call after one. -/
def hardFailureMessage : Str := "Using rule-based planning.".data

/-- The navigation action installed by `appendNavAction` (lines 581-597);
unlike the rule-based one, its confidence is the fixed 0.58. -/
def navActionOf (nextButton : NavigationTarget) : AgentAction :=
  { id := [], type := .clickNext, selector := nextButton.selector,
    fieldLabel := firstNonEmpty [nextButton.text, "Next button".data],
    value := [],
    reasoning := "Detected likely navigation control".data,
    confidence := mkRat 58 100 }

/-- `appendNavAction` (lines 581-597). -/
def appendNavAction (snapshot : FormSnapshot) (m : ActionMap) : ActionMap :=
  match snapshot.navigationTargets.head? with
  | some nextButton => mapSet m nextButton.selector (navActionOf nextButton)
  | none => m

/-- The `setValue` action installed for a generative field whose content
generation produced a non-empty string (lines 616-624). -/
def genActionOf (field : ExtractedField) (content : Str) : AgentAction :=
  { id := [], type := .setValue, selector := field.selector,
    fieldLabel := labelOr field "text field".data, value := content,
    reasoning := "Generated from resume + job context".data,
    confidence := mkRat 75 100 }

/-- One backend behaviour for a planning call.  `gen i` is the outcome of
`generateFieldContent` for the i-th generative field (`.error` a per-field
rejection, swallowed by the source's try/catch); `attempt1`/`attempt2` are
the outcomes of the two `runWebLlmPrompt` calls (`.error` carries the
thrown error's message).  Quantifying over `Oracle` covers every behaviour
of the generative collaborators, including adversarial output. -/
structure Oracle where
  rng : Rng
  genPred : Str → FieldKind → Bool
  gen : Nat → Except Unit Str
  attempt1 : Except Str Str
  attempt2 : Except Str Str

/-- The outcome of `generateFieldContent` for the numbered generative
field: `none` when the call rejected (swallowed by the per-field try/catch)
or returned an empty string, else the merged `setValue` action. -/
def genFieldWrite (o : Oracle) (p : Nat × ExtractedField) : Option AgentAction :=
  match o.gen p.1 with
  | .error _ => none
  | .ok content =>
    if content.isEmpty then none else some (genActionOf p.2 content)

/-- The `generativeFields` filter of `generateContentForFields`. -/
def generativeFieldsOf (o : Oracle) (snapshot : FormSnapshot) : List ExtractedField :=
  snapshot.fields.filter (fun field =>
    !hasMeaningfulValue field &&
      o.genPred (firstNonEmpty [field.label, field.name, field.placeholder]) field.kind)

/-- `generateContentForFields` (lines 599-632): for each empty generative
field, ask the content generator; merge non-empty successes, skip failures. -/
def generateContentForFields (o : Oracle) (snapshot : FormSnapshot)
    (m : ActionMap) : ActionMap × Nat :=
  foldWrite (genFieldWrite o) (generativeFieldsOf o snapshot).enum (m, 0)

/-- `allowedSelectors` (lines 638-641): the security boundary. -/
def allowedSelectorsOf (snapshot : FormSnapshot) : List Str :=
  snapshot.fields.map (·.selector) ++ snapshot.navigationTargets.map (·.selector)

/-- The `llmError` string for an unparseable response (line 681). -/
def unparseableMessage (raw : Str) : Str :=
  "LLM returned unparseable output (".data ++ (Nat.repr raw.length).data
    ++ " chars)".data

/-- Outcome of one attempt's try block: a non-empty validated action list,
or the `llmError` message the source records (a thrown message, or the
unparseable-output note when `tryParseActions` yields null or nothing;
`tryParseActions` runs inside the same try, so its throw is caught too). -/
def attemptOutcome (call : Except Str Str) : Except Str (List LlmAction) :=
  match call with
  | .error e => .error e
  | .ok raw =>
    match tryParseActions raw with
    | .error e => .error e
    | .ok (some parsed) =>
      if parsed.isEmpty then .error (unparseableMessage raw) else .ok parsed
    | .ok none => .error (unparseableMessage raw)

/-- The `, N generated` / ` (N fields generated)` notes in the detail
strings. -/
def genNoteInline (generatedCount : Nat) : Str :=
  if 0 < generatedCount then
    ", ".data ++ (Nat.repr generatedCount).data ++ " generated".data
  else []

def genNoteParen (generatedCount : Nat) : Str :=
  if 0 < generatedCount then
    " (".data ++ (Nat.repr generatedCount).data ++ " fields generated)".data
  else []

/-- The map after seeding with the rule-based actions
(`for (const action of ruleActions) mergedActions.set(action.selector, action)`). -/
def ruleSeededMap (o : Oracle) (snapshot : FormSnapshot)
    (context : AgentContext) : ActionMap :=
  (foldWrite (fun a => some a) (buildRuleBasedPlan o.rng o.genPred snapshot context)
    ([], 0)).1

/-- The map after the pre-resolved select actions overwrote the rule-based
ones for their selectors. -/
def preSeededMap (o : Oracle) (snapshot : FormSnapshot)
    (context : AgentContext) : ActionMap :=
  (foldWrite (fun p => p.resolvedAction) (preResolveSelectFields snapshot context)
    (ruleSeededMap o snapshot context, 0)).1

/-- The map and generated-field count after `generateContentForFields`. -/
def genStage (o : Oracle) (snapshot : FormSnapshot)
    (context : AgentContext) : ActionMap × Nat :=
  generateContentForFields o snapshot (preSeededMap o snapshot context)

/-- `buildActionPlan` (lines 634-729), instrumented: the second component
records whether the attempt-2 backend call was reached.  The map is seeded
with the rule-based actions, overwritten by the pre-resolved select actions,
then by generated prose, then by accepted LLM refinements, and finally the
navigation action is appended; every return site sorts the map's values. -/
def buildActionPlanT (o : Oracle) (snapshot : FormSnapshot)
    (context : AgentContext) : PlanResult × Bool :=
  let allowedSelectors := allowedSelectorsOf snapshot
  let m2 := (genStage o snapshot context).1
  let generatedCount := (genStage o snapshot context).2
  let totalFields := (snapshot.fields.filter (fun f => !hasMeaningfulValue f)).length
  match attemptOutcome o.attempt1 with
  | .ok parsed =>
    let merged := mergeLlmActions parsed snapshot allowedSelectors m2
    let m4 := appendNavAction snapshot merged.1
    ({ source := "hybrid".data,
       actions := sortActions (mapValues m4),
       llmDetail := "LLM refined ".data ++ (Nat.repr merged.2).data ++ "/".data
         ++ (Nat.repr totalFields).data ++ " fields".data
         ++ genNoteInline generatedCount }, false)
  | .error llmError1 =>
    if isHardWebLlmUnavailableError llmError1 then
      let m4 := appendNavAction snapshot m2
      ({ source := if 0 < generatedCount then "hybrid".data else "rule-based".data,
         actions := sortActions (mapValues m4),
         llmDetail := "Skipped retry: ".data ++ llmError1
           ++ genNoteParen generatedCount }, false)
    else
      match attemptOutcome o.attempt2 with
      | .ok parsed =>
        let merged := mergeLlmActions parsed snapshot allowedSelectors m2
        let m4 := appendNavAction snapshot merged.1
        ({ source := "hybrid".data,
           actions := sortActions (mapValues m4),
           llmDetail := "LLM retry succeeded: refined ".data
             ++ (Nat.repr merged.2).data ++ "/".data
             ++ (Nat.repr totalFields).data ++ " fields".data
             ++ genNoteInline generatedCount
             ++ " (first attempt: ".data ++ llmError1 ++ ")".data }, true)
      | .error llmError2 =>
        let combined := llmError1 ++
          (match o.attempt2 with
           | .error _ => "; retry failed: ".data ++ llmError2
           | .ok raw =>
             match tryParseActions raw with
             | .error _ => "; retry failed: ".data ++ llmError2
             | .ok _ => "; retry also returned unparseable output".data)
        let m4 := appendNavAction snapshot m2
        ({ source := if 0 < generatedCount then "hybrid".data else "rule-based".data,
           actions := sortActions (mapValues m4),
           llmDetail := "Fell back to rule-based".data ++ genNoteParen generatedCount
             ++ ": ".data ++ combined }, true)

/-- `buildActionPlan`: the returned `PlanResult` (the sole public entry
point of the engine). -/
def buildActionPlan (o : Oracle) (snapshot : FormSnapshot)
    (context : AgentContext) : PlanResult :=
  (buildActionPlanT o snapshot context).1

/-- The merged map right before `appendNavAction`, as a function of the
LLM actions accepted on the successful attempt (`none`: no attempt
succeeded, so the map is the generated-content stage unchanged). -/
def postLlmMap (o : Oracle) (snapshot : FormSnapshot) (context : AgentContext)
    (po : Option (List LlmAction)) : ActionMap :=
  match po with
  | some parsed =>
    (mergeLlmActions parsed snapshot (allowedSelectorsOf snapshot)
      (genStage o snapshot context).1).1
  | none => (genStage o snapshot context).1

/-- What `llmActionSchema` guarantees about every validated action. -/
def ValidLlm (a : LlmAction) : Prop :=
  a.selector ≠ [] ∧ 0 ≤ a.confidence ∧ a.confidence ≤ 1

/-!  Concrete instances used by the closed theorems and witnesses. -/

/-- A profile with every field empty. -/
def emptyProfile : UserProfile :=
  { fullName := [], email := [], phone := [], city := [], state := [],
    country := [], zipCode := [], streetAddress := [], linkedin := [],
    github := [], portfolio := [], currentTitle := [], yearsExperience := [],
    workAuthorization := [], needsSponsorship := [], summary := [] }

/-- A context carrying no information. -/
def emptyCtx : AgentContext :=
  { profile := emptyProfile, resume := { rawText := [], parsedHighlights := [] },
    jobContext := { jobTitle := [], companyName := [], description := [] } }

/-- Deterministic random draws (every theorem quantifying over `Rng` covers
them; concrete instances fix them to 0). -/
def rng0 : Rng := { rand := fun _ => 0, randNav := 0 }

/-- `isGenerativeField` of src/lib/content-generator.ts evaluated at the
concrete labels used below: none of "Role", "Subscribe",
"Sponsorship required" or "Country" matches a generative pattern
(cover letter, why-this-company, tell-us-about, motivation, ...), and none
of the fields is a textarea, so the predicate is false on all of them. -/
def genPredFalse : Str → FieldKind → Bool := fun _ _ => false

/-- An empty text field labelled "Role" with selector `#f`. -/
def textField0 : ExtractedField :=
  { id := [], selector := "#f".data, kind := .text, label := "Role".data,
    name := [], placeholder := [], required := false, options := [],
    currentValue := [] }

/-- A navigation target with selector `#n`. -/
def navTarget0 : NavigationTarget :=
  { id := [], selector := "#n".data, text := "Next".data }

/-- One empty text field plus one navigation target. -/
def snapTextNav : FormSnapshot :=
  { url := [], title := [], capturedAt := 0, fields := [textField0],
    navigationTargets := [navTarget0] }

/-- A backend whose first call returns an adversarial refinement: a
`clickNext` action aimed at the text field's selector. -/
def oracleClickNext : Oracle :=
  { rng := rng0, genPred := genPredFalse, gen := fun _ => .error (),
    attempt1 := .ok "[\x7b\"selector\":\"#f\",\"type\":\"clickNext\",\"value\":\"\"\x7d]".data,
    attempt2 := .error "x".data }

/-- A backend that is hard-unavailable exactly the way the shipped
`warmupWebLlm` is after a WebAssembly failure: every call rejects with the
message `hardFailureMessage`. -/
def oracleHardDown : Oracle :=
  { rng := rng0, genPred := genPredFalse, gen := fun _ => .error (),
    attempt1 := .error hardFailureMessage, attempt2 := .error hardFailureMessage }

/-- A backend whose two calls reject with an uninformative message. -/
def oracleErr : Oracle :=
  { rng := rng0, genPred := genPredFalse, gen := fun _ => .error (),
    attempt1 := .error "x".data, attempt2 := .error "x".data }

/-- An empty checkbox labelled "Subscribe" (no profile hint matches, so the
resolved candidate value is empty). -/
def checkboxNoValue : ExtractedField :=
  { id := [], selector := "#cb".data, kind := .checkbox, label := "Subscribe".data,
    name := [], placeholder := [], required := false, options := [],
    currentValue := [] }

/-- A snapshot holding only the unresolvable checkbox. -/
def snapCheckbox : FormSnapshot :=
  { url := [], title := [], capturedAt := 0, fields := [checkboxNoValue],
    navigationTargets := [] }

/-- An empty checkbox labelled "Sponsorship required" (hint "sponsorship"
resolves it from the profile). -/
def checkboxSponsor : ExtractedField :=
  { id := [], selector := "#sp".data, kind := .checkbox,
    label := "Sponsorship required".data, name := [], placeholder := [],
    required := false, options := [], currentValue := [] }

/-- A snapshot holding only the sponsorship checkbox. -/
def snapSponsor : FormSnapshot :=
  { url := [], title := [], capturedAt := 0, fields := [checkboxSponsor],
    navigationTargets := [] }

/-- A context answering "yes" to the sponsorship question. -/
def ctxSponsorYes : AgentContext :=
  { emptyCtx with profile := { emptyProfile with needsSponsorship := "yes".data } }

/-- The select field of the OptionResolver round-trip: a single option
`\x7b label: "United States", value: "US" \x7d`. -/
def countryField : ExtractedField :=
  { id := [], selector := "#c".data, kind := .select, label := "Country".data,
    name := [], placeholder := [], required := false,
    options := [{ label := "United States".data, value := "US".data }],
    currentValue := [] }

/-- A snapshot holding only the country select plus a navigation target. -/
def snapCountry : FormSnapshot :=
  { url := [], title := [], capturedAt := 0, fields := [countryField],
    navigationTargets := [navTarget0] }

/-- A context whose profile names the country by an alias. -/
def ctxCountryUsa : AgentContext :=
  { emptyCtx with profile := { emptyProfile with country := "USA".data } }

/-!  Lemmas: what schema validation guarantees. -/

theorem zNonEmptyString_ne_nil {j : Option Json} {s : Str}
    (h : zNonEmptyString j = some s) : s ≠ [] := by
  unfold zNonEmptyString at h
  split at h
  · split at h
    · exact absurd h (by simp)
    · rename_i s' hs'
      cases h
      simpa using hs'
  · exact absurd h (by simp)

theorem zConfidence_bounds {j : Option Json} {q : ℚ}
    (h : zConfidence j = some q) : 0 ≤ q ∧ q ≤ 1 := by
  unfold zConfidence at h
  split at h
  · cases h; constructor <;> decide
  · split at h
    · rename_i hb
      cases h
      exact hb
    · exact absurd h (by simp)
  · exact absurd h (by simp)

theorem llmActionParse_valid {j : Json} {a : LlmAction}
    (h : llmActionParse j = some a) : ValidLlm a := by
  unfold llmActionParse at h
  split at h
  · split at h
    · rename_i hsel _ _ _ _ hconf
      cases h
      exact ⟨zNonEmptyString_ne_nil hsel, zConfidence_bounds hconf⟩
    · exact absurd h (by simp)
  · exact absurd h (by simp)

theorem llmListParse_valid {xs : List Json} {l : List LlmAction}
    (h : llmListParse xs = some l) : ∀ a ∈ l, ValidLlm a := by
  induction xs generalizing l with
  | nil =>
    unfold llmListParse at h
    cases h
    simp
  | cons j rest ih =>
    unfold llmListParse at h
    split at h
    · rename_i a' l' ha' hl'
      cases h
      intro a ha
      rcases List.mem_cons.1 ha with rfl | ha
      · exact llmActionParse_valid ha'
      · exact ih hl' a ha
    · exact absurd h (by simp)

theorem llmActionListParse_valid {j : Json} {l : List LlmAction}
    (h : llmActionListParse j = some l) : ∀ a ∈ l, ValidLlm a := by
  unfold llmActionListParse at h
  split at h
  · exact llmListParse_valid h
  · exact absurd h (by simp)

theorem wrappedParse_valid {j : Json} {l : List LlmAction}
    (h : wrappedParse j = some l) : ∀ a ∈ l, ValidLlm a := by
  unfold wrappedParse at h
  split at h
  · split at h
    · exact llmActionListParse_valid h
    · exact absurd h (by simp)
  · exact absurd h (by simp)

theorem directActions_valid {parsed : Json} {l : List LlmAction}
    (h : directActions parsed = some l) : l ≠ [] ∧ ∀ a ∈ l, ValidLlm a := by
  unfold directActions at h
  split at h
  · rename_i a rest hlist
    cases h
    exact ⟨by simp, llmActionListParse_valid hlist⟩
  · exact absurd h (by simp)

theorem candidateActions_valid {cand : Str} {l : List LlmAction}
    (h : candidateActions cand = some l) : l ≠ [] ∧ ∀ a ∈ l, ValidLlm a := by
  unfold candidateActions at h
  split at h
  · exact absurd h (by simp)
  · split at h
    · rename_i a rest hacts
      cases h
      exact ⟨by simp, wrappedParse_valid hacts⟩
    · exact directActions_valid h

theorem salvageOne_valid {obj : Str} {a : LlmAction}
    (h : salvageOne obj = some a) : ValidLlm a := by
  unfold salvageOne at h
  split at h
  · exact llmActionParse_valid h
  · exact absurd h (by simp)

theorem salvageActions_valid {raw : Str} {l : List LlmAction}
    (h : salvageActions raw = some l) : l ≠ [] ∧ ∀ a ∈ l, ValidLlm a := by
  unfold salvageActions at h
  split at h
  · exact absurd h (by simp)
  · rename_i a rest hfm
    cases h
    refine ⟨by simp, fun b hb => ?_⟩
    have hb2 : b ∈ (salvageGo (raw.length + 1) raw).filterMap salvageOne := by
      rw [hfm]; exact hb
    rcases List.mem_filterMap.1 hb2 with ⟨obj, _, hobj⟩
    exact salvageOne_valid hobj

theorem tryParseActions_ok_valid {raw : Str} {l : List LlmAction}
    (h : tryParseActions raw = .ok (some l)) : l ≠ [] ∧ ∀ a ∈ l, ValidLlm a := by
  simp only [tryParseActions] at h
  split at h
  · exact absurd h (by simp)
  · exact absurd h (by simp)
  · split at h
    · rename_i acts hacts
      cases h
      rcases List.exists_of_findSome?_eq_some hacts with ⟨cand, _, hcand⟩
      exact candidateActions_valid hcand
    · injection h with h2
      exact salvageActions_valid h2

theorem attemptOutcome_ok {e : Except Str Str} {l : List LlmAction}
    (h : attemptOutcome e = .ok l) :
    l ≠ [] ∧ (∀ a ∈ l, ValidLlm a) ∧
      ∃ raw, e = .ok raw ∧ tryParseActions raw = .ok (some l) := by
  unfold attemptOutcome at h
  split at h
  · exact absurd h (by simp)
  · rename_i raw
    split at h
    · exact absurd h (by simp)
    · rename_i parsed hparse
      split at h
      · exact absurd h (by simp)
      · cases h
        have hv := tryParseActions_ok_valid hparse
        exact ⟨hv.1, hv.2, raw, rfl, hparse⟩
    · exact absurd h (by simp)

/-!  Lemmas: the insertion-ordered map. -/

theorem mapGet_cons (q : Str × AgentAction) (m : ActionMap) (k : Str) :
    mapGet (q :: m) k = if q.1 = k then some q.2 else mapGet m k := by
  by_cases h : q.1 = k
  · rw [mapGet, List.find?_cons_of_pos _ (by simpa using h)]
    simp [h]
  · rw [mapGet, List.find?_cons_of_neg _ (by simpa using h), if_neg h, mapGet]

theorem mem_mapSet {m : ActionMap} {k : Str} {v : AgentAction} {p : Str × AgentAction}
    (h : p ∈ mapSet m k v) : p ∈ m ∨ p = (k, v) := by
  induction m with
  | nil => right; simpa [mapSet] using h
  | cons q rest ih =>
    rw [mapSet] at h
    split at h
    · rcases List.mem_cons.1 h with rfl | h2
      · right; rfl
      · exact Or.inl (List.mem_cons_of_mem _ h2)
    · rcases List.mem_cons.1 h with rfl | h2
      · exact Or.inl (List.mem_cons.2 (Or.inl rfl))
      · rcases ih h2 with h3 | h3
        · exact Or.inl (List.mem_cons_of_mem _ h3)
        · exact Or.inr h3

theorem keys_mapSet (m : ActionMap) (k : Str) (v : AgentAction) :
    (mapSet m k v).map Prod.fst =
      if k ∈ m.map Prod.fst then m.map Prod.fst else m.map Prod.fst ++ [k] := by
  induction m with
  | nil => simp [mapSet]
  | cons q rest ih =>
    rw [mapSet]
    split
    · rename_i hqk
      have hk : k ∈ (q :: rest).map Prod.fst := by
        rw [List.map_cons, hqk]
        exact List.mem_cons.2 (Or.inl rfl)
      rw [if_pos hk, List.map_cons, List.map_cons, hqk]
    · rename_i hqk
      have hne : ¬(k = q.1) := fun h => hqk h.symm
      by_cases hk : k ∈ rest.map Prod.fst
      · have hk2 : k ∈ (q :: rest).map Prod.fst := by
          rw [List.map_cons]
          exact List.mem_cons.2 (Or.inr hk)
        rw [if_pos hk2, List.map_cons, List.map_cons, ih, if_pos hk]
      · have hk2 : ¬(k ∈ (q :: rest).map Prod.fst) := by
          rw [List.map_cons]
          intro hcon
          rcases List.mem_cons.1 hcon with h1 | h1
          · exact hne h1
          · exact hk h1
        rw [if_neg hk2, List.map_cons, List.map_cons, ih, if_neg hk, List.cons_append]

theorem nodupKeys_mapSet {m : ActionMap} {k : Str} {v : AgentAction}
    (h : (m.map Prod.fst).Nodup) : ((mapSet m k v).map Prod.fst).Nodup := by
  rw [keys_mapSet]
  split
  · exact h
  · rename_i hout
    simp [List.nodup_append, h, hout]

theorem mapGet_mapSet_self (m : ActionMap) (k : Str) (v : AgentAction) :
    mapGet (mapSet m k v) k = some v := by
  induction m with
  | nil => simp [mapSet, mapGet_cons]
  | cons q rest ih =>
    rw [mapSet]
    split
    · simp [mapGet_cons]
    · rename_i hqk
      rw [mapGet_cons, if_neg hqk]
      exact ih

theorem mapGet_mapSet_ne {k' : Str} (m : ActionMap) (k : Str) (v : AgentAction)
    (hne : ¬(k' = k)) : mapGet (mapSet m k v) k' = mapGet m k' := by
  induction m with
  | nil =>
    rw [mapSet, mapGet_cons, if_neg (fun h => hne h.symm)]
  | cons q rest ih =>
    rw [mapSet]
    split
    · rename_i hqk
      rw [mapGet_cons, mapGet_cons, if_neg (fun h => hne h.symm), if_neg]
      rw [hqk]
      exact fun h => hne h.symm
    · rw [mapGet_cons, mapGet_cons]
      split
      · rfl
      · exact ih

/-!  Lemmas: the shared write loop. -/

theorem foldWrite_nil {β : Type} (f : β → Option AgentAction) (st : ActionMap × Nat) :
    foldWrite f [] st = st := rfl

theorem foldWrite_cons {β : Type} (f : β → Option AgentAction) (x : β) (l : List β)
    (st : ActionMap × Nat) :
    foldWrite f (x :: l) st = foldWrite f l
      (match f x with
       | none => st
       | some act => (mapSet st.1 act.selector act, st.2 + 1)) := by
  rw [foldWrite, List.foldl_cons]
  rfl

theorem foldWrite_mem {β : Type} {f : β → Option AgentAction} {l : List β}
    {st : ActionMap × Nat} {p : Str × AgentAction}
    (hp : p ∈ (foldWrite f l st).1) :
    p ∈ st.1 ∨ ∃ x a, x ∈ l ∧ f x = some a ∧ p = (a.selector, a) := by
  induction l generalizing st with
  | nil => exact Or.inl (by simpa [foldWrite_nil] using hp)
  | cons x rest ih =>
    rw [foldWrite_cons] at hp
    rcases hfx : f x with _ | act
    · rw [hfx] at hp
      rcases ih hp with h1 | ⟨y, a, hy, hfy, hpa⟩
      · exact Or.inl h1
      · exact Or.inr ⟨y, a, List.mem_cons_of_mem _ hy, hfy, hpa⟩
    · rw [hfx] at hp
      rcases ih hp with h1 | ⟨y, a, hy, hfy, hpa⟩
      · rcases mem_mapSet h1 with h2 | h2
        · exact Or.inl h2
        · exact Or.inr ⟨x, act, List.mem_cons.2 (Or.inl rfl), hfx, h2⟩
      · exact Or.inr ⟨y, a, List.mem_cons_of_mem _ hy, hfy, hpa⟩

theorem foldWrite_nodup {β : Type} {f : β → Option AgentAction} {l : List β}
    {st : ActionMap × Nat} (h : (st.1.map Prod.fst).Nodup) :
    (((foldWrite f l st).1).map Prod.fst).Nodup := by
  induction l generalizing st with
  | nil => simpa [foldWrite_nil] using h
  | cons x rest ih =>
    rw [foldWrite_cons]
    rcases hfx : f x with _ | act
    · exact ih h
    · exact ih (nodupKeys_mapSet h)

theorem foldWrite_get_nowrite {β : Type} {f : β → Option AgentAction} {l : List β}
    {st : ActionMap × Nat} {k : Str}
    (h : ∀ x ∈ l, ∀ a, f x = some a → ¬(a.selector = k)) :
    mapGet (foldWrite f l st).1 k = mapGet st.1 k := by
  induction l generalizing st with
  | nil => rw [foldWrite_nil]
  | cons x rest ih =>
    rw [foldWrite_cons]
    rcases hfx : f x with _ | act
    · exact ih (fun y hy => h y (List.mem_cons_of_mem _ hy))
    · rw [ih (fun y hy => h y (List.mem_cons_of_mem _ hy))]
      exact mapGet_mapSet_ne _ _ _
        (fun hk => h x (List.mem_cons.2 (Or.inl rfl)) act hfx hk.symm)

theorem foldWrite_get_write {β : Type} {f : β → Option AgentAction} {l : List β}
    {st : ActionMap × Nat} {x : β} {a : AgentAction}
    (hx : x ∈ l) (hfx : f x = some a) :
    ∃ b, (∃ y, y ∈ l ∧ f y = some b ∧ b.selector = a.selector) ∧
      mapGet (foldWrite f l st).1 a.selector = some b := by
  induction l generalizing st x a with
  | nil => cases hx
  | cons z rest ih =>
    by_cases hw : ∃ y, y ∈ rest ∧ ∃ b, f y = some b ∧ b.selector = a.selector
    · obtain ⟨y, hy, b, hfb, hbs⟩ := hw
      rw [foldWrite_cons]
      obtain ⟨b2, ⟨y2, hy2, hfy2, hsel2⟩, hget⟩ := ih hy hfb
      exact ⟨b2, ⟨y2, List.mem_cons_of_mem _ hy2, hfy2, by rw [hsel2, hbs]⟩,
        by rw [← hbs]; exact hget⟩
    · push_neg at hw
      have hxz : x = z := by
        rcases List.mem_cons.1 hx with h1 | h1
        · exact h1
        · exact absurd rfl (hw x h1 a hfx)
      subst hxz
      rw [foldWrite_cons, hfx]
      refine ⟨a, ⟨x, List.mem_cons.2 (Or.inl rfl), hfx, rfl⟩, ?_⟩
      rw [foldWrite_get_nowrite (fun y hy b hfb hbs => hw y hy b hfb hbs)]
      exact mapGet_mapSet_self _ _ _

theorem foldWrite_get_unique {β : Type} {f : β → Option AgentAction} {l : List β}
    {st : ActionMap × Nat} {x : β} {a : AgentAction}
    (hx : x ∈ l) (hfx : f x = some a)
    (huniq : ∀ y ∈ l, ∀ b, f y = some b → b.selector = a.selector → b = a) :
    mapGet (foldWrite f l st).1 a.selector = some a := by
  obtain ⟨b, ⟨y, hy, hfy, hsel⟩, hget⟩ := @foldWrite_get_write _ _ _ st _ _ hx hfx
  rw [huniq y hy b hfy hsel] at hget
  exact hget

/-!  Lemmas: what each writer of the merged map produces. -/

theorem ruleBasedConfidence_bounds (c s r : ℚ) :
    0 ≤ ruleBasedConfidence c s r ∧ ruleBasedConfidence c s r ≤ 1 := by
  suffices h : ∀ x : ℚ, 0 ≤ qmax 0 (qmin 1 x) ∧ qmax 0 (qmin 1 x) ≤ 1 from h _
  intro x
  unfold qmax qmin
  split_ifs with h1 h2 h3
  all_goals constructor
  all_goals try norm_num
  all_goals linarith

theorem convertFieldToAction_spec {f : ExtractedField} {v src : Str} {conf : ℚ}
    {a : AgentAction} (h : convertFieldToAction f v src conf = some a) :
    a.selector = f.selector ∧ a.confidence = conf ∧ isFillType a.type = true := by
  simp only [convertFieldToAction] at h
  split at h
  · exact absurd h (by simp)
  · split at h
    · split at h
      · exact absurd h (by simp)
      · cases h
        exact ⟨rfl, rfl, rfl⟩
    · split at h
      · cases h
        exact ⟨rfl, rfl, rfl⟩
      · split at h
        · cases h
          exact ⟨rfl, rfl, rfl⟩
        · cases h
          exact ⟨rfl, rfl, rfl⟩

theorem ruleFieldAction_spec {context : AgentContext}
    {genPred : Str → FieldKind → Bool} {r : ℚ} {field : ExtractedField}
    {a : AgentAction} (h : ruleFieldAction context genPred r field = some a) :
    a.selector = field.selector ∧ 0 ≤ a.confidence ∧ a.confidence ≤ 1 ∧
      isFillType a.type = true := by
  simp only [ruleFieldAction] at h
  split at h
  · exact absurd h (by simp)
  · split at h
    · exact absurd h (by simp)
    · have hc := convertFieldToAction_spec h
      have hb := ruleBasedConfidence_bounds (mkRat 62 100) (mkRat 12 100) r
      exact ⟨hc.1, hc.2.1 ▸ hb.1, hc.2.1 ▸ hb.2, hc.2.2⟩

theorem mem_buildRuleBasedPlan {rng : Rng} {genPred : Str → FieldKind → Bool}
    {snapshot : FormSnapshot} {context : AgentContext} {a : AgentAction}
    (h : a ∈ buildRuleBasedPlan rng genPred snapshot context) :
    (∃ i field, (i, field) ∈ snapshot.fields.enum ∧
        ruleFieldAction context genPred (rng.rand i) field = some a) ∨
      (∃ nt, snapshot.navigationTargets.head? = some nt ∧
        a = ruleNavAction nt rng.randNav) := by
  unfold buildRuleBasedPlan at h
  split at h
  · rename_i nt hnt
    rcases List.mem_append.1 h with h1 | h1
    · rcases List.mem_filterMap.1 h1 with ⟨p, hp, hfp⟩
      exact Or.inl ⟨p.1, p.2, hp, hfp⟩
    · exact Or.inr ⟨nt, hnt, by simpa using h1⟩
  · rcases List.mem_filterMap.1 h with ⟨p, hp, hfp⟩
    exact Or.inl ⟨p.1, p.2, hp, hfp⟩

theorem ruleNavAction_spec (nt : NavigationTarget) (r : ℚ) :
    (ruleNavAction nt r).selector = nt.selector ∧
      (ruleNavAction nt r).type = .clickNext ∧
      0 ≤ (ruleNavAction nt r).confidence ∧ (ruleNavAction nt r).confidence ≤ 1 := by
  have hb := ruleBasedConfidence_bounds (mkRat 58 100) (mkRat 12 100) r
  exact ⟨rfl, rfl, hb.1, hb.2⟩

theorem preResolveOne_field (context : AgentContext) (field : ExtractedField) :
    (preResolveOne context field).field = field := by
  simp only [preResolveOne]
  split
  · rfl
  · split
    · rfl
    · split
      · rfl
      · rfl

theorem preResolveOne_action {context : AgentContext} {field : ExtractedField}
    {a : AgentAction} (ha : (preResolveOne context field).resolvedAction = some a) :
    a.selector = field.selector ∧ a.confidence = mkRat 85 100 ∧
      a.type = .setSelect := by
  simp only [preResolveOne] at ha
  split at ha
  · exact absurd ha (by simp)
  · split at ha
    · exact absurd ha (by simp)
    · split at ha
      · exact absurd ha (by simp)
      · simp only [Option.some.injEq] at ha
        subst ha
        exact ⟨rfl, rfl, rfl⟩

theorem preResolve_spec {snapshot : FormSnapshot} {context : AgentContext}
    {p : PreResolvedField} (hp : p ∈ preResolveSelectFields snapshot context) :
    p.field ∈ snapshot.fields ∧
      ∀ a, p.resolvedAction = some a →
        a.selector = p.field.selector ∧ a.confidence = mkRat 85 100 ∧
          a.type = .setSelect := by
  unfold preResolveSelectFields at hp
  rcases List.mem_map.1 hp with ⟨field, hfield, hfp⟩
  subst hfp
  rw [preResolveOne_field]
  exact ⟨hfield, fun a ha => preResolveOne_action ha⟩

theorem genFieldWrite_spec {o : Oracle} {p : Nat × ExtractedField} {a : AgentAction}
    (h : genFieldWrite o p = some a) :
    a.selector = p.2.selector ∧ a.confidence = mkRat 75 100 ∧ a.type = .setValue := by
  unfold genFieldWrite at h
  split at h
  · exact absurd h (by simp)
  · split at h
    · exact absurd h (by simp)
    · simp only [Option.some.injEq] at h
      subst h
      exact ⟨rfl, rfl, rfl⟩

theorem acceptLlm_spec {snapshot : FormSnapshot} {allowed : List Str}
    {la : LlmAction} {act : AgentAction}
    (h : acceptLlm snapshot allowed la = some act) :
    act.selector = la.selector ∧ la.selector ∈ allowed ∧
      act.confidence = la.confidence ∧ act.type = la.type := by
  simp only [acceptLlm] at h
  split at h
  · rename_i hin
    split at h
    · exact absurd h (by simp)
    · split at h
      · split at h
        · exact absurd h (by simp)
        · simp only [Option.some.injEq] at h
          subst h
          exact ⟨rfl, hin, rfl, rfl⟩
      · simp only [Option.some.injEq] at h
        subst h
        exact ⟨rfl, hin, rfl, rfl⟩
  · exact absurd h (by simp)

theorem mem_generativeFields {o : Oracle} {snapshot : FormSnapshot}
    {p : Nat × ExtractedField} (hp : p ∈ (generativeFieldsOf o snapshot).enum) :
    p.2 ∈ snapshot.fields := by
  have h2 : p.2 ∈ generativeFieldsOf o snapshot := by
    have := List.enum_map_snd (generativeFieldsOf o snapshot)
    rw [← this]
    exact List.mem_map_of_mem _ hp
  exact List.mem_of_mem_filter h2

/-!  Lemmas: the final merged map. -/

/-- The disjunction of writers that can stand behind an action of the final
map. -/
def WrittenBy (o : Oracle) (s : FormSnapshot) (c : AgentContext)
    (po : Option (List LlmAction)) (a : AgentAction) : Prop :=
  (∃ nt, s.navigationTargets.head? = some nt ∧ a = navActionOf nt) ∨
  (∃ la act, la ∈ po.getD [] ∧
    acceptLlm s (allowedSelectorsOf s) la = some act ∧ a = act) ∨
  (∃ q, q ∈ (generativeFieldsOf o s).enum ∧ genFieldWrite o q = some a) ∨
  (∃ pre, pre ∈ preResolveSelectFields s c ∧ pre.resolvedAction = some a) ∨
  a ∈ buildRuleBasedPlan o.rng o.genPred s c

theorem mem_final_entry {o : Oracle} {s : FormSnapshot} {c : AgentContext}
    {po : Option (List LlmAction)} {p : Str × AgentAction}
    (hp : p ∈ appendNavAction s (postLlmMap o s c po)) :
    p.1 = p.2.selector ∧ WrittenBy o s c po p.2 := by
  have hrule : ∀ {q : Str × AgentAction}, q ∈ ruleSeededMap o s c →
      q.1 = q.2.selector ∧ WrittenBy o s c po q.2 := by
    intro q hq
    rcases foldWrite_mem hq with h1 | ⟨x, a, hx, hfx, hqa⟩
    · simp [ruleSeededMap] at h1
    · cases hqa
      injection hfx with hfx
      subst hfx
      exact ⟨rfl, Or.inr (Or.inr (Or.inr (Or.inr hx)))⟩
  have hpre : ∀ {q : Str × AgentAction}, q ∈ preSeededMap o s c →
      q.1 = q.2.selector ∧ WrittenBy o s c po q.2 := by
    intro q hq
    rcases foldWrite_mem hq with h1 | ⟨x, a, hx, hfx, hqa⟩
    · exact hrule h1
    · cases hqa
      exact ⟨rfl, Or.inr (Or.inr (Or.inr (Or.inl ⟨x, hx, hfx⟩)))⟩
  have hgen : ∀ {q : Str × AgentAction}, q ∈ (genStage o s c).1 →
      q.1 = q.2.selector ∧ WrittenBy o s c po q.2 := by
    intro q hq
    rcases foldWrite_mem hq with h1 | ⟨x, a, hx, hfx, hqa⟩
    · exact hpre h1
    · cases hqa
      exact ⟨rfl, Or.inr (Or.inr (Or.inl ⟨x, hx, hfx⟩))⟩
  have hllm : ∀ {q : Str × AgentAction}, q ∈ postLlmMap o s c po →
      q.1 = q.2.selector ∧ WrittenBy o s c po q.2 := by
    intro q hq
    rcases po with _ | parsed
    · exact hgen hq
    · rcases foldWrite_mem hq with h1 | ⟨x, a, hx, hfx, hqa⟩
      · exact hgen h1
      · cases hqa
        exact ⟨rfl, Or.inr (Or.inl ⟨x, a, hx, hfx, rfl⟩)⟩
  unfold appendNavAction at hp
  split at hp
  · rename_i nt hnt
    rcases mem_mapSet hp with h1 | h1
    · exact hllm h1
    · cases h1
      exact ⟨rfl, Or.inl ⟨nt, hnt, rfl⟩⟩
  · exact hllm hp

theorem nodup_final_keys (o : Oracle) (s : FormSnapshot) (c : AgentContext)
    (po : Option (List LlmAction)) :
    ((appendNavAction s (postLlmMap o s c po)).map Prod.fst).Nodup := by
  have hrule : ((ruleSeededMap o s c).map Prod.fst).Nodup :=
    foldWrite_nodup (by simp)
  have hpre : ((preSeededMap o s c).map Prod.fst).Nodup :=
    foldWrite_nodup hrule
  have hgen : (((genStage o s c).1).map Prod.fst).Nodup :=
    foldWrite_nodup hpre
  have hllm : ((postLlmMap o s c po).map Prod.fst).Nodup := by
    rcases po with _ | parsed
    · exact hgen
    · exact foldWrite_nodup hgen
  unfold appendNavAction
  split
  · exact nodupKeys_mapSet hllm
  · exact hllm

/-- Which merged map the returned action list is the sorted values of, and
where its accepted LLM actions came from. -/
theorem plan_shape (o : Oracle) (s : FormSnapshot) (c : AgentContext) :
    ∃ po : Option (List LlmAction),
      (∀ l, po = some l →
        attemptOutcome o.attempt1 = .ok l ∨ attemptOutcome o.attempt2 = .ok l) ∧
      (buildActionPlanT o s c).1.actions
        = sortActions (mapValues (appendNavAction s (postLlmMap o s c po))) := by
  rcases h1 : attemptOutcome o.attempt1 with e1 | l1
  · by_cases hh : isHardWebLlmUnavailableError e1 = true
    · refine ⟨none, by simp, ?_⟩
      simp only [buildActionPlanT, h1, hh, postLlmMap, if_true]
    · rcases h2 : attemptOutcome o.attempt2 with e2 | l2
      · refine ⟨none, by simp, ?_⟩
        simp only [buildActionPlanT, h1, h2, hh, postLlmMap, if_false,
          Bool.false_eq_true]
      · refine ⟨some l2, fun l hl => by cases hl; exact Or.inr rfl, ?_⟩
        simp only [buildActionPlanT, h1, h2, hh, postLlmMap, mergeLlmActions,
          if_false, Bool.false_eq_true]
  · refine ⟨some l1, fun l hl => by cases hl; exact Or.inl rfl, ?_⟩
    simp only [buildActionPlanT, h1, postLlmMap, mergeLlmActions]

theorem plan_shape_valid {o : Oracle} {po : Option (List LlmAction)}
    (hpo : ∀ l, po = some l →
      attemptOutcome o.attempt1 = .ok l ∨ attemptOutcome o.attempt2 = .ok l) :
    ∀ la ∈ po.getD [], ValidLlm la := by
  rcases po with _ | l
  · simp
  · intro la hla
    rcases hpo l rfl with h | h
    · exact (attemptOutcome_ok h).2.1 la hla
    · exact (attemptOutcome_ok h).2.1 la hla

/-!  Lemmas: the final sort. -/

theorem sortActions_perm (l : List AgentAction) : (sortActions l).Perm l :=
  List.filter_append_perm _ l

theorem sortActions_pairwise (l : List AgentAction) :
    (sortActions l).Pairwise
      (fun a b => isFillType b.type = true → isFillType a.type = true) := by
  unfold sortActions
  rw [List.pairwise_append]
  refine ⟨?_, ?_, ?_⟩
  · refine List.pairwise_of_forall_mem_list (fun a ha b _ => ?_)
    exact fun _ => (List.mem_filter.1 ha).2
  · refine List.pairwise_of_forall_mem_list (fun a _ b hb => ?_)
    intro hfill
    have := (List.mem_filter.1 hb).2
    rw [hfill] at this
    exact absurd this (by simp)
  · intro a _ b hb
    intro hfill
    have := (List.mem_filter.1 hb).2
    rw [hfill] at this
    exact absurd this (by simp)

theorem sortActions_filter_fill (l : List AgentAction) :
    (sortActions l).filter (fun a => isFillType a.type)
      = l.filter (fun a => isFillType a.type) := by
  unfold sortActions
  rw [List.filter_append, List.filter_filter, List.filter_filter]
  have h1 : l.filter (fun a => isFillType a.type && isFillType a.type)
      = l.filter (fun a => isFillType a.type) := by
    refine List.filter_congr (fun a _ => ?_)
    cases isFillType a.type <;> rfl
  have h2 : l.filter (fun a => isFillType a.type && !isFillType a.type) = [] := by
    rw [List.eq_nil_iff_forall_not_mem]
    intro a ha
    have := (List.mem_filter.1 ha).2
    cases hcase : isFillType a.type <;> rw [hcase] at this <;> simp at this
  rw [h1, h2, List.append_nil]

theorem sortActions_filter_nonfill (l : List AgentAction) :
    (sortActions l).filter (fun a => !isFillType a.type)
      = l.filter (fun a => !isFillType a.type) := by
  unfold sortActions
  rw [List.filter_append, List.filter_filter, List.filter_filter]
  have h1 : l.filter (fun a => !isFillType a.type && isFillType a.type) = [] := by
    rw [List.eq_nil_iff_forall_not_mem]
    intro a ha
    have := (List.mem_filter.1 ha).2
    cases hcase : isFillType a.type <;> rw [hcase] at this <;> simp at this
  have h2 : l.filter (fun a => !isFillType a.type && !isFillType a.type)
      = l.filter (fun a => !isFillType a.type) := by
    refine List.filter_congr (fun a _ => ?_)
    cases isFillType a.type <;> rfl
  rw [h1, h2, List.nil_append]

/-- Every action of a returned plan stems from one of the five writers. -/
theorem plan_action_written (o : Oracle) (s : FormSnapshot) (c : AgentContext)
    {a : AgentAction} (ha : a ∈ (buildActionPlan o s c).actions) :
    ∃ po : Option (List LlmAction),
      (∀ l, po = some l →
        attemptOutcome o.attempt1 = .ok l ∨ attemptOutcome o.attempt2 = .ok l) ∧
      WrittenBy o s c po a := by
  obtain ⟨po, hpo, hact⟩ := plan_shape o s c
  unfold buildActionPlan at ha
  rw [hact] at ha
  have ha2 : a ∈ mapValues (appendNavAction s (postLlmMap o s c po)) :=
    (sortActions_perm _).mem_iff.1 ha
  obtain ⟨p, hp, hpa⟩ := List.mem_map.1 ha2
  have h := mem_final_entry hp
  exact ⟨po, hpo, hpa ▸ h.2⟩

/-!  The claims. -/

/-- Claim C1: every action in the `PlanResult` returned by `buildActionPlan`
has a selector belonging to the union of the snapshot's field selectors and
navigation-target selectors, for every behaviour of the generative backend —
adversarial output naming foreign selectors is silently discarded. -/
theorem c1_selector_boundary (o : Oracle) (s : FormSnapshot) (c : AgentContext)
    (a : AgentAction) (ha : a ∈ (buildActionPlan o s c).actions) :
    a.selector ∈ s.fields.map (fun f => f.selector) ∨
      a.selector ∈ s.navigationTargets.map (fun nt => nt.selector) := by
  obtain ⟨po, hpo, hw⟩ := plan_action_written o s c ha
  rcases hw with ⟨nt, hnt, rfl⟩ | ⟨la, act, hla, hacc, rfl⟩ | ⟨q, hq, hgen⟩ |
    ⟨pre, hpre, hact⟩ | hrule
  · exact Or.inr (List.mem_map.2 ⟨nt, List.mem_of_mem_head? hnt, rfl⟩)
  · obtain ⟨hsel, hall, -, -⟩ := acceptLlm_spec hacc
    rw [hsel]
    unfold allowedSelectorsOf at hall
    exact List.mem_append.1 hall
  · have hs := genFieldWrite_spec hgen
    rw [hs.1]
    exact Or.inl (List.mem_map.2 ⟨q.2, mem_generativeFields hq, rfl⟩)
  · have hs := preResolve_spec hpre
    rw [(hs.2 a hact).1]
    exact Or.inl (List.mem_map.2 ⟨pre.field, hs.1, rfl⟩)
  · rcases mem_buildRuleBasedPlan hrule with ⟨i, field, hif, hfa⟩ | ⟨nt, hnt, rfl⟩
    · have hs := ruleFieldAction_spec hfa
      rw [hs.1]
      have hfm : field ∈ s.fields := by
        have hmap := List.enum_map_snd s.fields
        rw [← hmap]
        exact List.mem_map.2 ⟨(i, field), hif, rfl⟩
      exact Or.inl (List.mem_map.2 ⟨field, hfm, rfl⟩)
    · exact Or.inr (List.mem_map.2 ⟨nt, List.mem_of_mem_head? hnt, rfl⟩)

/-- Witness for C1 at a concrete input: with both backend calls rejecting,
the plan for a one-field/one-navigation snapshot contains the rule-based
navigation action, and its selector lies in the snapshot's selector union. -/
theorem c1_selector_boundary_witness :
    navActionOf navTarget0 ∈
        (buildActionPlan oracleErr snapTextNav emptyCtx).actions ∧
      ((navActionOf navTarget0).selector ∈
          snapTextNav.fields.map (fun f => f.selector) ∨
        (navActionOf navTarget0).selector ∈
          snapTextNav.navigationTargets.map (fun nt => nt.selector)) :=
  ⟨by decide, c1_selector_boundary oracleErr snapTextNav emptyCtx _ (by decide)⟩

/-- Claim C2: `buildActionPlan` never throws and always resolves with a
`PlanResult`, whatever the generative backend does — the model is total over
every oracle (all rejection patterns included), and the result is always one
of the two fallback-capable source tags. -/
theorem c2_total_never_throws (o : Oracle) (s : FormSnapshot) (c : AgentContext) :
    (buildActionPlan o s c).source = "hybrid".data ∨
      (buildActionPlan o s c).source = "rule-based".data := by
  unfold buildActionPlan buildActionPlanT
  rcases h1 : attemptOutcome o.attempt1 with e1 | l1
  · by_cases hh : isHardWebLlmUnavailableError e1 = true
    · by_cases hg : 0 < (genStage o s c).2
      · refine Or.inl ?_
        simp only [h1, hh, hg, if_true]
      · refine Or.inr ?_
        simp only [h1, hh, hg, if_true, if_false]
    · rcases h2 : attemptOutcome o.attempt2 with e2 | l2
      · by_cases hg : 0 < (genStage o s c).2
        · refine Or.inl ?_
          simp only [h1, h2, hh, hg, Bool.false_eq_true, if_false, if_true]
        · refine Or.inr ?_
          simp only [h1, h2, hh, hg, Bool.false_eq_true, if_false]
      · refine Or.inl ?_
        simp only [h1, h2, hh, Bool.false_eq_true, if_false]
  · refine Or.inl ?_
    simp only [h1]

/-- Claim C6: every action of every returned plan has confidence in `[0,1]`:
the jittered rule-based baseline is clamped, the fixed confidences (0.85
pre-resolved, 0.75 generated prose, 0.58 navigation) are in range, and every
accepted generative action kept its schema-validated confidence. -/
theorem c6_confidence_in_range (o : Oracle) (s : FormSnapshot) (c : AgentContext)
    (a : AgentAction) (ha : a ∈ (buildActionPlan o s c).actions) :
    0 ≤ a.confidence ∧ a.confidence ≤ 1 := by
  obtain ⟨po, hpo, hw⟩ := plan_action_written o s c ha
  rcases hw with ⟨nt, hnt, rfl⟩ | ⟨la, act, hla, hacc, rfl⟩ | ⟨q, hq, hgen⟩ |
    ⟨pre, hpre, hact⟩ | hrule
  · have hc : (navActionOf nt).confidence = mkRat 58 100 := rfl
    rw [hc]
    constructor <;> decide
  · have hs := acceptLlm_spec hacc
    have hv := plan_shape_valid hpo la hla
    rw [hs.2.2.1]
    exact hv.2
  · have hs := genFieldWrite_spec hgen
    rw [hs.2.1]
    constructor <;> decide
  · have hs := preResolve_spec hpre
    rw [(hs.2 a hact).2.1]
    constructor <;> decide
  · rcases mem_buildRuleBasedPlan hrule with ⟨i, field, hif, hfa⟩ | ⟨nt, hnt, rfl⟩
    · have hs := ruleFieldAction_spec hfa
      exact ⟨hs.2.1, hs.2.2.1⟩
    · have hs := ruleBasedConfidence_bounds (mkRat 58 100) (mkRat 12 100) o.rng.randNav
      exact hs

/-- Witness for C6 at a concrete input: the navigation action of the
fallback plan has confidence 0.58, inside `[0,1]`. -/
theorem c6_confidence_in_range_witness :
    navActionOf navTarget0 ∈
        (buildActionPlan oracleErr snapTextNav emptyCtx).actions ∧
      0 ≤ (navActionOf navTarget0).confidence ∧
        (navActionOf navTarget0).confidence ≤ 1 :=
  ⟨by decide, c6_confidence_in_range oracleErr snapTextNav emptyCtx _ (by decide)⟩

/-- The action `preResolveOne` produces for the country select resolved from
the profile value "USA". -/
def preActCountry : AgentAction :=
  { id := [], type := .setSelect, selector := "#c".data,
    fieldLabel := "Country".data, value := "US".data,
    reasoning := preResolvedReasoning "USA".data "United States".data,
    confidence := mkRat 85 100 }

/-- Claim C4: at most one action exists per selector in every returned plan,
and the merge is last-writer-wins: `Map.set` overwrites
(second conjunct), a pre-resolved select action supersedes the rule-based
action at its selector — the pre-resolution fold ends with the pre-resolved
action installed, whatever map it started from (third conjunct, for
snapshots whose field selectors are distinct) — and an accepted
generative-refined action supersedes whatever the map held at its selector
(fourth conjunct: after `mergeLlmActions`, the entry is an accepted
generative-refined action for that selector). -/
theorem c4_last_writer_wins :
    (∀ (o : Oracle) (s : FormSnapshot) (c : AgentContext),
      (buildActionPlan o s c).actions.Pairwise
        (fun a b => ¬(a.selector = b.selector))) ∧
    (∀ (m : ActionMap) (k : Str) (v : AgentAction),
      mapGet (mapSet m k v) k = some v) ∧
    (∀ (s : FormSnapshot) (c : AgentContext) (st : ActionMap × Nat)
        (pre : PreResolvedField) (a : AgentAction),
      pre ∈ preResolveSelectFields s c →
      pre.resolvedAction = some a →
      (s.fields.map (fun f => f.selector)).Nodup →
      mapGet (foldWrite (fun p => p.resolvedAction)
        (preResolveSelectFields s c) st).1 a.selector = some a) ∧
    (∀ (s : FormSnapshot) (allowed : List Str) (parsed : List LlmAction)
        (m : ActionMap) (la : LlmAction) (act : AgentAction),
      la ∈ parsed →
      acceptLlm s allowed la = some act →
      ∃ act2, (∃ la2, la2 ∈ parsed ∧ acceptLlm s allowed la2 = some act2 ∧
          act2.selector = act.selector) ∧
        mapGet (mergeLlmActions parsed s allowed m).1 act.selector = some act2) := by
  refine ⟨?_, ?_, ?_, ?_⟩
  · intro o s c
    obtain ⟨po, hpo, hact⟩ := plan_shape o s c
    unfold buildActionPlan
    rw [hact]
    have hM := nodup_final_keys o s c po
    have h1 : (appendNavAction s (postLlmMap o s c po)).Pairwise
        (fun p q => ¬(p.1 = q.1)) := List.pairwise_map.1 hM
    have h2 : (appendNavAction s (postLlmMap o s c po)).Pairwise
        (fun p q => ¬(p.2.selector = q.2.selector)) := by
      refine h1.imp_of_mem (fun hp hq hne => ?_)
      rw [← (mem_final_entry hp).1, ← (mem_final_entry hq).1]
      exact hne
    have h3 : (mapValues (appendNavAction s (postLlmMap o s c po))).Pairwise
        (fun a b => ¬(a.selector = b.selector)) := List.pairwise_map.2 h2
    exact ((sortActions_perm _).pairwise_iff
      (fun hxy h => hxy h.symm)).2 h3
  · intro m k v
    exact mapGet_mapSet_self m k v
  · intro s c st pre a hpre hres hnodup
    refine foldWrite_get_unique hpre hres (fun y hy b hfb hbsel => ?_)
    unfold preResolveSelectFields at hpre hy
    rcases List.mem_map.1 hy with ⟨fy, hfy, hyeq⟩
    rcases List.mem_map.1 hpre with ⟨fp, hfp, hpeq⟩
    subst hyeq hpeq
    have hbs := (preResolveOne_action hfb).1
    have has := (preResolveOne_action hres).1
    have hff : fy = fp :=
      List.inj_on_of_nodup_map hnodup hfy hfp (by rw [← hbs, ← has, hbsel])
    subst hff
    rw [hfb] at hres
    injection hres
  · intro s allowed parsed m la act hla hacc
    exact foldWrite_get_write hla hacc

/-- Witness for C4 at a concrete input: the pre-resolved country action
supersedes whatever the rule-based seeding put at `#c`. -/
theorem c4_last_writer_wins_witness :
    (snapCountry.fields.map (fun f => f.selector)).Nodup ∧
    preResolveOne ctxCountryUsa countryField ∈
      preResolveSelectFields snapCountry ctxCountryUsa ∧
    (preResolveOne ctxCountryUsa countryField).resolvedAction
      = some preActCountry ∧
    mapGet (foldWrite (fun p => p.resolvedAction)
        (preResolveSelectFields snapCountry ctxCountryUsa) ([], 0)).1
      preActCountry.selector = some preActCountry :=
  ⟨by decide, by decide, by decide,
    c4_last_writer_wins.2.2.1 snapCountry ctxCountryUsa ([], 0)
      (preResolveOne ctxCountryUsa countryField) preActCountry
      (by decide) (by decide) (by decide)⟩

theorem length_le_one_of_nodup_const {α : Type} {l : List α} {cst : α}
    (hn : l.Nodup) (hc : ∀ x ∈ l, x = cst) : l.length ≤ 1 := by
  cases l with
  | nil => simp
  | cons x rest =>
    cases rest with
    | nil => simp
    | cons y rest2 =>
      exfalso
      have hx := hc x (by simp)
      have hy := hc y (by simp)
      have hxy : ¬(x = y) := by
        have hh := List.nodup_cons.1 hn
        exact fun hxy => hh.1 (hxy ▸ List.mem_cons.2 (Or.inl rfl))
      exact hxy (by rw [hx, hy])

/-- A `clickNext` entry of the final map sits at the first navigation
target's selector, provided no accepted generative action has type
`clickNext`. -/
theorem clickNext_entry {o : Oracle} {s : FormSnapshot} {c : AgentContext}
    {po : Option (List LlmAction)} {p : Str × AgentAction}
    (hpo : ∀ l, po = some l →
      attemptOutcome o.attempt1 = .ok l ∨ attemptOutcome o.attempt2 = .ok l)
    (h1 : ∀ l, attemptOutcome o.attempt1 = .ok l →
      ∀ la ∈ l, ¬(la.type = .clickNext))
    (h2 : ∀ l, attemptOutcome o.attempt2 = .ok l →
      ∀ la ∈ l, ¬(la.type = .clickNext))
    (hp : p ∈ appendNavAction s (postLlmMap o s c po))
    (hcn : p.2.type = .clickNext) :
    ∃ nt, s.navigationTargets.head? = some nt ∧ p.1 = nt.selector := by
  obtain ⟨hkey, hw⟩ := mem_final_entry hp
  rcases hw with ⟨nt, hnt, heq⟩ | ⟨la, act, hla, hacc, heq⟩ | ⟨q, hq, hgen⟩ |
    ⟨pre, hpre, hact⟩ | hrule
  · exact ⟨nt, hnt, by rw [hkey, heq]; rfl⟩
  · exfalso
    have hta := (acceptLlm_spec hacc).2.2.2
    have hlacn : la.type = .clickNext := by
      rw [← hta, ← heq]
      exact hcn
    rcases po with _ | l
    · simp at hla
    · rcases hpo l rfl with hout | hout
      · exact h1 l hout la hla hlacn
      · exact h2 l hout la hla hlacn
  · have hty := (genFieldWrite_spec hgen).2.2
    rw [hty] at hcn
    exact absurd hcn (by simp)
  · have hty := ((preResolve_spec hpre).2 _ hact).2.2
    rw [hty] at hcn
    exact absurd hcn (by simp)
  · rcases mem_buildRuleBasedPlan hrule with ⟨i, field, hif, hfa⟩ | ⟨nt, hnt, heq⟩
    · have hfill := (ruleFieldAction_spec hfa).2.2.2
      rw [hcn] at hfill
      exact absurd hfill (by simp [isFillType])
    · exact ⟨nt, hnt, by rw [hkey, heq]; rfl⟩

/-- Counterexample to C5 as stated: with generative output that names the
text field's selector with type `clickNext` — accepted, since the selector
is allowed — the returned plan holds two `clickNext` actions. -/
theorem c5_counterexample :
    ¬((buildActionPlan oracleClickNext snapTextNav emptyCtx).actions.countP
        (fun a => a.type == ActionType.clickNext) ≤ 1) := by decide

/-- Claim C5 (amended): in every returned action list, every fill-type
action precedes every `clickNext` action and the relative order within each
class is preserved (the sort is the stable partition); at most one
`clickNext` action is present provided no accepted generative action has
type `clickNext` (adversarial generative output can add more, as the
counterexample shows). -/
theorem c5_fill_before_nav (o : Oracle) (s : FormSnapshot) (c : AgentContext)
    (h1 : ∀ l, attemptOutcome o.attempt1 = .ok l →
      ∀ la ∈ l, ¬(la.type = .clickNext))
    (h2 : ∀ l, attemptOutcome o.attempt2 = .ok l →
      ∀ la ∈ l, ¬(la.type = .clickNext)) :
    (buildActionPlan o s c).actions.Pairwise
        (fun a b => isFillType b.type = true → isFillType a.type = true) ∧
      (buildActionPlan o s c).actions.countP
        (fun a => a.type == ActionType.clickNext) ≤ 1 ∧
      ∀ l, (sortActions l).filter (fun a => isFillType a.type)
          = l.filter (fun a => isFillType a.type) ∧
        (sortActions l).filter (fun a => !isFillType a.type)
          = l.filter (fun a => !isFillType a.type) := by
  obtain ⟨po, hpo, hact⟩ := plan_shape o s c
  unfold buildActionPlan
  rw [hact]
  refine ⟨sortActions_pairwise _, ?_,
    fun l => ⟨sortActions_filter_fill l, sortActions_filter_nonfill l⟩⟩
  rw [(sortActions_perm _).countP_eq]
  unfold mapValues
  rw [List.countP_map, List.countP_eq_length_filter]
  have hpred : ((fun a : AgentAction => a.type == ActionType.clickNext) ∘
      (fun p : Str × AgentAction => p.2))
      = (fun p : Str × AgentAction => p.2.type == ActionType.clickNext) := rfl
  rw [hpred]
  set M := appendNavAction s (postLlmMap o s c po) with hM
  have hcn : ∀ p ∈ M.filter (fun p => p.2.type == ActionType.clickNext),
      ∃ nt, s.navigationTargets.head? = some nt ∧ p.1 = nt.selector := by
    intro p hp
    have hmem := List.mem_filter.1 hp
    exact clickNext_entry hpo h1 h2 hmem.1 (by simpa using hmem.2)
  rcases hnt : s.navigationTargets.head? with _ | nt
  · have hempty : M.filter (fun p => p.2.type == ActionType.clickNext) = [] := by
      rw [List.eq_nil_iff_forall_not_mem]
      intro p hp
      obtain ⟨nt, hnt2, -⟩ := hcn p hp
      rw [hnt] at hnt2
      cases hnt2
    rw [hempty]
    simp
  · have hnodupS : ((M.filter (fun p => p.2.type == ActionType.clickNext)).map
        Prod.fst).Nodup :=
      ((List.filter_sublist M).map Prod.fst).nodup (nodup_final_keys o s c po)
    have hconst : ∀ x ∈ (M.filter
        (fun p => p.2.type == ActionType.clickNext)).map Prod.fst,
        x = nt.selector := by
      intro x hx
      rcases List.mem_map.1 hx with ⟨p, hp, hpx⟩
      obtain ⟨nt2, hnt2, hsel⟩ := hcn p hp
      rw [hnt] at hnt2
      cases hnt2
      rw [← hpx]
      exact hsel
    have hlen := length_le_one_of_nodup_const hnodupS hconst
    rw [List.length_map] at hlen
    exact hlen

/-- Witness for the amended C5: with both backend calls rejecting, the
returned plan is partitioned and holds at most one `clickNext` action. -/
theorem c5_fill_before_nav_witness :
    (buildActionPlan oracleErr snapTextNav emptyCtx).actions.Pairwise
        (fun a b => isFillType b.type = true → isFillType a.type = true) ∧
      (buildActionPlan oracleErr snapTextNav emptyCtx).actions.countP
        (fun a => a.type == ActionType.clickNext) ≤ 1 ∧
      ∀ l, (sortActions l).filter (fun a => isFillType a.type)
          = l.filter (fun a => isFillType a.type) ∧
        (sortActions l).filter (fun a => !isFillType a.type)
          = l.filter (fun a => !isFillType a.type) :=
  c5_fill_before_nav oracleErr snapTextNav emptyCtx
    (fun _ hl => absurd hl (by simp [attemptOutcome, oracleErr]))
    (fun _ hl => absurd hl (by simp [attemptOutcome, oracleErr]))

/-- Claim C3, evaluated at the failing input: `isHardWebLlmUnavailableError`
only matches the message "WebLLM unavailable in this browser context", which
`warmupWebLlm` (src/lib/webllm.ts) never produces — its hard failures throw
"WebGPU is not available in this browser" or "Using rule-based planning." —
so when the shipped backend is hard-unavailable the engine does NOT skip
attempt 2: the traced run shows the second backend call was made (the
returned source is still "rule-based", as the claim expects). -/
theorem c3_hard_unavailability_not_detected :
    isHardWebLlmUnavailableError hardFailureMessage = false ∧
    isHardWebLlmUnavailableError webgpuMissingMessage = false ∧
    (buildActionPlanT oracleHardDown snapTextNav emptyCtx).2 = true ∧
    (buildActionPlanT oracleHardDown snapTextNav emptyCtx).1.source
      = "rule-based".data := by
  refine ⟨by decide, by decide, by decide, by decide⟩

/-- Claim C7: for a field with options `[(label "United States", value
"US")]`, the option resolver maps "US" (exact value), "usa" (alias),
"United States" (exact label) and "Unted Sates" (typo, whose Jaro-Winkler
similarity to the label clears the 0.85 threshold) to "US", and maps
"Canada" to the empty string, the non-exceptional no-match outcome. -/
theorem c7_option_resolver_roundtrip :
    pickOptionValue countryField "US".data = "US".data ∧
    pickOptionValue countryField "usa".data = "US".data ∧
    pickOptionValue countryField "United States".data = "US".data ∧
    pickOptionValue countryField "Unted Sates".data = "US".data ∧
    mkRat 85 100 ≤ jaroWinkler "unted sates".data "united states".data ∧
    pickOptionValue countryField "Canada".data = [] := by
  refine ⟨by decide, by decide, by decide, by decide, by decide, by decide⟩

/-- The single validated action the repaired C8 input yields. -/
def c8Action : LlmAction :=
  { selector := "#a".data, type := .setValue, fieldLabel := [],
    value := "x".data, reasoning := [], confidence := mkRat 6 10 }

/-- Claim C8: parsing the raw text `[\x7bselector:"#a", type:"setValue",
value:"x",\x7d]` (unquoted keys, trailing comma) repairs the JSON and yields
exactly one validated action: selector "#a", type `setValue`, value "x",
fieldLabel and reasoning defaulted to "", confidence defaulted to 0.6. -/
theorem c8_parser_repairs_unquoted_keys :
    tryParseActions "[\x7bselector:\"#a\", type:\"setValue\", value:\"x\",\x7d]".data
      = .ok (some [c8Action]) := by
  rfl

/-- Counterexample to C9 as stated: the "Subscribe" checkbox lacks a
meaningful value, is not generative, and its resolved candidate value is
empty — yet the rule-based planner emits no action at all for it
(`convertFieldToAction` returns null on an empty raw value before reaching
the checkbox branch), where the claim demands a `setCheckbox` action with
value "false". -/
theorem c9_counterexample :
    checkboxNoValue ∈ snapCheckbox.fields ∧
    checkboxNoValue.kind = .checkbox ∧
    hasMeaningfulValue checkboxNoValue = false ∧
    genPredFalse (firstNonEmpty [checkboxNoValue.label, checkboxNoValue.name,
      checkboxNoValue.placeholder]) checkboxNoValue.kind = false ∧
    findProfileValueForField checkboxNoValue emptyCtx = [] ∧
    buildRuleBasedPlan rng0 genPredFalse snapCheckbox emptyCtx = [] ∧
    ¬∃ a ∈ buildRuleBasedPlan rng0 genPredFalse snapCheckbox emptyCtx,
      a.type = ActionType.setCheckbox := by
  refine ⟨by decide, by decide, by decide, by decide, by decide, by decide, by decide⟩

set_option maxHeartbeats 1000000 in
/-- Claim C9 (amended): for every checkbox field lacking a meaningful value
and not classified as generative, the rule-based planner produces a
`setCheckbox` action — with value "true" iff the resolved value contains
"yes"/"true"/"1"/"required" case-insensitively, else "false" — provided the
resolved candidate value is non-empty; when it is empty, the field yields no
action (contrary to the claim's "including when the resolved candidate
value is empty"). -/
theorem c9_checkbox_rule (s : FormSnapshot) (c : AgentContext) (rng : Rng)
    (genPred : Str → FieldKind → Bool) (i : Nat) (field : ExtractedField)
    (hif : (i, field) ∈ s.fields.enum)
    (hkind : field.kind = .checkbox)
    (hmean : hasMeaningfulValue field = false)
    (hgen : genPred (firstNonEmpty [field.label, field.name, field.placeholder])
      field.kind = false) :
    (findProfileValueForField field c = [] →
      ruleFieldAction c genPred (rng.rand i) field = none) ∧
    (¬(findProfileValueForField field c = []) →
      ∃ a, a ∈ buildRuleBasedPlan rng genPred s c ∧
        ruleFieldAction c genPred (rng.rand i) field = some a ∧
        a.selector = field.selector ∧ a.type = ActionType.setCheckbox ∧
        a.value = (if checkboxChecked
            (normalizeStr (findProfileValueForField field c))
          then "true".data else "false".data)) := by
  have hsel : ¬(field.kind = FieldKind.select) := by
    rw [hkind]
    exact fun h => nomatch h
  have hconvert : ∀ (rv : Str) (src : Str) (conf : ℚ), ¬(rv = []) →
      convertFieldToAction field rv src conf = some
        { id := [], type := ActionType.setCheckbox, selector := field.selector,
          fieldLabel := labelOr field "checkbox".data,
          value := if checkboxChecked (normalizeStr rv)
            then "true".data else "false".data,
          reasoning := "Checkbox decision from ".data ++ src ++ " plan".data,
          confidence := conf } := by
    intro rv src conf hrv
    unfold convertFieldToAction
    rw [if_neg (fun hh => hrv (List.isEmpty_iff.1 hh)), if_neg hsel, if_pos hkind]
  have hrule : ∀ rv : Str, findProfileValueForField field c = rv →
      ruleFieldAction c genPred (rng.rand i) field
        = convertFieldToAction field rv "rule-based".data
          (ruleBasedConfidence (mkRat 62 100) (mkRat 12 100) (rng.rand i)) := by
    intro rv hrv
    unfold ruleFieldAction
    dsimp only
    rw [if_neg (by rw [hmean]; exact fun hh => nomatch hh),
      if_neg (by rw [hgen]; exact fun hh => nomatch hh), hrv]
  constructor
  · intro hempty
    rw [hrule [] hempty]
    rfl
  · intro hne
    have hact : ruleFieldAction c genPred (rng.rand i) field = some
        { id := [], type := ActionType.setCheckbox, selector := field.selector,
          fieldLabel := labelOr field "checkbox".data,
          value := if checkboxChecked
              (normalizeStr (findProfileValueForField field c))
            then "true".data else "false".data,
          reasoning := "Checkbox decision from ".data ++ "rule-based".data
            ++ " plan".data,
          confidence := ruleBasedConfidence (mkRat 62 100) (mkRat 12 100)
            (rng.rand i) } := by
      rw [hrule (findProfileValueForField field c) rfl]
      exact hconvert _ _ _ hne
    refine ⟨_, ?_, hact, ?_, ?_, ?_⟩
    · unfold buildRuleBasedPlan
      have hmem : _ ∈ s.fields.enum.filterMap
          (fun p => ruleFieldAction c genPred (rng.rand p.1) p.2) :=
        List.mem_filterMap.2 ⟨(i, field), hif, hact⟩
      split
      · exact List.mem_append.2 (Or.inl hmem)
      · exact hmem
    · rfl
    · rfl
    · rfl

/-- Witness for the amended C9: the "Sponsorship required" checkbox resolves
to "yes" from the profile and yields a `setCheckbox` action with value
"true". -/
theorem c9_checkbox_rule_witness :
    (0, checkboxSponsor) ∈ snapSponsor.fields.enum ∧
    hasMeaningfulValue checkboxSponsor = false ∧
    ¬(findProfileValueForField checkboxSponsor ctxSponsorYes = []) ∧
    ∃ a, a ∈ buildRuleBasedPlan rng0 genPredFalse snapSponsor ctxSponsorYes ∧
      ruleFieldAction ctxSponsorYes genPredFalse (rng0.rand 0) checkboxSponsor
        = some a ∧
      a.selector = checkboxSponsor.selector ∧ a.type = ActionType.setCheckbox ∧
      a.value = (if checkboxChecked
          (normalizeStr (findProfileValueForField checkboxSponsor ctxSponsorYes))
        then "true".data else "false".data) :=
  ⟨by decide, by decide, by decide,
    (c9_checkbox_rule snapSponsor ctxSponsorYes rng0 genPredFalse 0 checkboxSponsor
      (by decide) (by decide) (by decide) (by decide)).2 (by decide)⟩

/-- The raw text exercising the salvage stage: unparseable as a whole, one
valid object and one invalid object (unknown action type, dropped). -/
def salvageRaw : Str :=
  "junk \x7b\"selector\":\"#a\",\"type\":\"setValue\",\"value\":\"x\"\x7d \x7b\"selector\":\"#b\",\"type\":\"nope\"\x7d".data

/-- Counterexample to C10 as stated: on the input "[]]a" the parser does not
return at all — the eagerly-built repair candidate throws (negative repeat
count while balancing brackets), so `tryParseActions` raises instead of
returning null or a list. -/
theorem c10_counterexample :
    tryParseActions "[]]a".data = .error "Invalid count value".data := by
  rfl

/-- Claim C10 (amended): whenever `tryParseActions` returns (it can instead
throw, but only out of the bracket-balancing repair as the counterexample
shows), the result is null or a non-empty list of schema-validated actions
(non-empty selector, known action kind by construction, confidence in
`[0,1]`); and in the last-resort salvage stage, invalid individual objects
are dropped while valid ones are kept (second conjunct: only the valid
object of `salvageRaw` survives). -/
theorem c10_parser_no_empty_list :
    (∀ (raw : Str) (r : Option (List LlmAction)), tryParseActions raw = .ok r →
      r = none ∨ ∃ l, r = some l ∧ ¬(l = []) ∧ ∀ a ∈ l,
        ¬(a.selector = []) ∧ 0 ≤ a.confidence ∧ a.confidence ≤ 1) ∧
    tryParseActions salvageRaw = .ok (some [c8Action]) := by
  constructor
  · intro raw r h
    rcases r with _ | l
    · exact Or.inl rfl
    · have hv := tryParseActions_ok_valid h
      exact Or.inr ⟨l, rfl, hv.1, fun a ha => hv.2 a ha⟩
  · rfl

/-- Witness for the amended C10 at a concrete returning input. -/
theorem c10_parser_no_empty_list_witness :
    tryParseActions "xyz".data = .ok none ∧
    ((none : Option (List LlmAction)) = none ∨
      ∃ l, (none : Option (List LlmAction)) = some l ∧ ¬(l = []) ∧ ∀ a ∈ l,
        ¬(a.selector = []) ∧ 0 ≤ a.confidence ∧ a.confidence ≤ 1) :=
  ⟨by rfl, c10_parser_no_empty_list.1 "xyz".data none (by rfl)⟩

end JobAgent
